import Mathlib

/-!
Verification development for the `plugin-vad-local-silero` VAD service.

This file gives a shallow embedding, in Lean 4, of the core of the Go
implementation:

* `engine.StubEngine` (src/internal/engine/stub.go) — the deterministic
  toggle-based test engine;
* `engine.SileroEngine` (the Silero ONNX engine, src/unnamed/part_005) —
  its PCM decoding and window-buffering arithmetic, with the neural
  inference step kept as an abstract pure function parameter;
* the boundary detector (`boundaryDetector` in
  src/internal/server/server.go) — hysteresis over per-frame results;
* the per-stream orchestrator loop of `Server.DetectSpeech`
  (src/internal/server/server.go, newer revision) — format caching and
  validation, lazy engine construction, config layering, per-frame
  audio-time timestamps and the EOF flush.

Machine integers are modelled as `Nat`/`Int`; `float32`/`float64` values
(confidences, thresholds, decoded samples) are modelled as `ℚ`, which is
exact for the divisions by 32768 that occur in the PCM codec.  Wall-clock
anchors are dropped: a timestamp is modelled as the millisecond offset
`frame_index * frame_duration_ms` from the stream anchor, which is the
quantity the Go code adds to `streamStart`.
-/

namespace VadSilero

/-- `engine.Result` (src/internal/engine/engine.go): the output of a single
VAD inference frame. -/
structure Result where
  IsSpeech : Bool
  Confidence : ℚ
  deriving DecidableEq, Repr

/-- `engine.ExpectedSampleRate = 16000`. -/
def ExpectedSampleRate : Nat := 16000

/-- Engine-level errors.  `wrongSampleRate` is `engine.ErrWrongSampleRate`;
`oddPCMLength` is the `fmt.Errorf` odd-length error each engine returns. -/
inductive EngineError where
  | wrongSampleRate
  | oddPCMLength
  deriving DecidableEq, Repr

/-! ## Stub engine (src/internal/engine/stub.go) -/

/-- `engine.StubToggleInterval = 50`. -/
def StubToggleInterval : Nat := 50

/-- `engine.StubConfidence = 0.42` (a `float32` constant, modelled in `ℚ`). -/
def StubConfidence : ℚ := 42 / 100

/-- `engine.stubFrameDurationMs = 20`. -/
def stubFrameDurationMs : Nat := 20

/-- `engine.stubSamplesPerFrame = 16000 * 20 / 1000 = 320`. -/
def stubSamplesPerFrame : Nat := ExpectedSampleRate * stubFrameDurationMs / 1000

/-- `engine.StubEngine`: toggle counter, current phase, buffered sample
count. -/
structure StubEngine where
  counter : Nat
  speaking : Bool
  pcmBuf : Nat
  deriving DecidableEq, Repr

/-- `engine.NewStubEngine()`: zero-valued stub engine (silence phase). -/
def NewStubEngine : StubEngine := ⟨0, false, 0⟩

namespace StubEngine

/-- One iteration of the `for e.pcmBuf >= stubSamplesPerFrame` loop body of
`StubEngine.ProcessChunk`: consume one frame, advance the toggle counter,
produce one `Result`. -/
def step (e : StubEngine) : StubEngine × Result :=
  let counter := e.counter + 1
  if counter ≥ StubToggleInterval then
    let e1 : StubEngine := ⟨0, !e.speaking, e.pcmBuf - stubSamplesPerFrame⟩
    (e1, ⟨e1.speaking, StubConfidence⟩)
  else
    let e1 : StubEngine := ⟨counter, e.speaking, e.pcmBuf - stubSamplesPerFrame⟩
    (e1, ⟨e1.speaking, StubConfidence⟩)

/-- The drain loop of `StubEngine.ProcessChunk`, written with explicit fuel
so that it computes by kernel reduction.  Each iteration consumes
`stubSamplesPerFrame ≥ 1` buffered samples, so fuel `e.pcmBuf` suffices. -/
def drainFuel : Nat → StubEngine → StubEngine × List Result
  | 0, e => (e, [])
  | fuel + 1, e =>
    if e.pcmBuf ≥ stubSamplesPerFrame then
      let (e1, r) := step e
      let (e2, rs) := drainFuel fuel e1
      (e2, r :: rs)
    else
      (e, [])

/-- `while e.pcmBuf >= stubSamplesPerFrame { ... }` of
`StubEngine.ProcessChunk`. -/
def drain (e : StubEngine) : StubEngine × List Result :=
  drainFuel e.pcmBuf e

/-- `StubEngine.ProcessChunk(pcm, sampleRate)`.  The Go method mutates the
receiver; here it returns the engine to use afterwards together with the
outcome.  On an error return the Go method has not touched the receiver, so
the returned engine equals the input. -/
def ProcessChunk (e : StubEngine) (pcm : List Nat) (sampleRate : Nat) :
    StubEngine × Except EngineError (List Result) :=
  if sampleRate ≠ ExpectedSampleRate then
    (e, .error .wrongSampleRate)
  else if pcm.length % 2 ≠ 0 then
    (e, .error .oddPCMLength)
  else
    let samples := pcm.length / 2
    let (e2, rs) := drain { e with pcmBuf := e.pcmBuf + samples }
    (e2, .ok rs)

/-- `StubEngine.SetThreshold` is a no-op in the source. -/
def SetThreshold (e : StubEngine) (_threshold : ℚ) : StubEngine := e

/-- `StubEngine.Reset()`. -/
def Reset (_e : StubEngine) : StubEngine := ⟨0, false, 0⟩

/-- `StubEngine.FrameDurationMs() = 20`. -/
def FrameDurationMs (_e : StubEngine) : Nat := stubFrameDurationMs

end StubEngine

/-! ## Silero engine (src/unnamed/part_005)

The ONNX inference call `SileroEngine.infer` invokes the neural network
through the ONNX runtime; it is kept abstract as a pure function
`infer : RNN → List ℚ → ℚ × RNN` from the carried hidden state and one
512-sample window to a speech probability and the next hidden state (the Go
`infer` deterministically copies the window into the input tensor, runs the
session and carries `stateN` back into `state`; ONNX-runtime failures are
not modelled).  Everything around it — PCM decoding, window buffering and
thresholding — is translated from the source. -/

/-- `sileroWindowSize = 512`. -/
def sileroWindowSize : Nat := 512

/-- `int16(u)` for a `uint16` value `u`: two's-complement reinterpretation. -/
def toInt16 (u : Nat) : Int :=
  if u < 32768 then (u : Int) else (u : Int) - 65536

/-- `pcmToFloat32` (src/unnamed/part_005): little-endian s16le bytes to
samples normalised by 32768 (exact in `ℚ`, as it is in `float32`).  Bytes
are `Nat`s; the `% 256` mirrors their `uint8` typing in Go. -/
def pcmToFloat32 : List Nat → List ℚ
  | b0 :: b1 :: rest =>
      ((toInt16 (b0 % 256 + b1 % 256 * 256) : ℚ) / 32768) :: pcmToFloat32 rest
  | _ => []

/-- `engine.SileroEngine`: float sample buffer, carried RNN state, active
threshold.  The tensors are summarised by the abstract state `RNN`. -/
structure SileroEngine (RNN : Type) where
  pcmBuf : List ℚ
  state : RNN
  threshold : ℚ
  deriving DecidableEq

namespace SileroEngine

variable {RNN : Type} (infer : RNN → List ℚ → ℚ × RNN)

/-- The `for len(e.pcmBuf) >= sileroWindowSize` loop of
`SileroEngine.ProcessChunk`, with explicit fuel (each iteration drops a
512-sample window, so fuel `e.pcmBuf.length` suffices). -/
def drainFuel : Nat → SileroEngine RNN → SileroEngine RNN × List Result
  | 0, e => (e, [])
  | fuel + 1, e =>
    if e.pcmBuf.length ≥ sileroWindowSize then
      let pr := infer e.state (e.pcmBuf.take sileroWindowSize)
      let e1 : SileroEngine RNN :=
        { e with pcmBuf := e.pcmBuf.drop sileroWindowSize, state := pr.2 }
      let rest := drainFuel fuel e1
      (rest.1, ⟨decide (pr.1 ≥ e.threshold), pr.1⟩ :: rest.2)
    else
      (e, [])

/-- The drain loop of `SileroEngine.ProcessChunk`. -/
def drain (e : SileroEngine RNN) : SileroEngine RNN × List Result :=
  drainFuel infer e.pcmBuf.length e

/-- `SileroEngine.ProcessChunk(pcm, sampleRate)`: sample-rate and parity
checks, then decode, append to the buffer and run one inference per full
window.  As for the stub, the returned engine is the receiver state after
the call; on error the receiver was not touched. -/
def ProcessChunk (e : SileroEngine RNN) (pcm : List Nat) (sampleRate : Nat) :
    SileroEngine RNN × Except EngineError (List Result) :=
  if sampleRate ≠ ExpectedSampleRate then
    (e, .error .wrongSampleRate)
  else if pcm.length % 2 ≠ 0 then
    (e, .error .oddPCMLength)
  else
    let samples := pcmToFloat32 pcm
    let dr := drain infer { e with pcmBuf := e.pcmBuf ++ samples }
    (dr.1, .ok dr.2)

/-- `SileroEngine.SetThreshold`. -/
def SetThreshold (e : SileroEngine RNN) (threshold : ℚ) : SileroEngine RNN :=
  { e with threshold := threshold }

/-- `SileroEngine.FrameDurationMs() = 512 * 1000 / 16000 = 32`. -/
def FrameDurationMs (_e : SileroEngine RNN) : Nat :=
  sileroWindowSize * 1000 / ExpectedSampleRate

end SileroEngine

/-! ## Configuration (src/internal/config) and per-stream JSON config -/

/-- The VAD-relevant part of `config.Config`: `Threshold` (`float64`,
modelled in `ℚ`), `MinSpeechDurationMs` and `MinSilenceDurationMs` (Go
`int`, modelled as `Int`).  The transport fields (`Engine`, `ListenAddr`,
`LogLevel`) play no role in the claims. -/
structure Config where
  Threshold : ℚ
  MinSpeechDurationMs : Int
  MinSilenceDurationMs : Int
  deriving DecidableEq, Repr

/-- Reasons `applyStreamConfig` can fail. -/
inductive ConfigError where
  | invalidJson
  | speechPadUnsupported
  | vadParamsOutOfRange
  deriving DecidableEq, Repr

/-- The error message of the `speech_pad_ms` rejection in
`applyStreamConfig` (src/internal/server/server.go). -/
def speechPadErrMsg : String :=
  "speech_pad_ms is not supported; use min_speech_duration_ms and min_silence_duration_ms instead"

/-- The result of `json.Unmarshal` of a `config_json` string into the
`streamCfg` struct of `applyStreamConfig`: either the string was blank
(after `strings.TrimSpace`), or malformed JSON, or it decoded to the four
optional recognised fields.  Unrecognised top-level keys are dropped by
`json.Unmarshal` and therefore do not appear in the decoded form. -/
inductive ConfigJson where
  | absent
  | malformed
  | parsed (threshold : Option ℚ) (minSpeechDurationMs : Option Int)
      (minSilenceDurationMs : Option Int) (speechPadMs : Option Int)
  deriving DecidableEq

/-- Modelled from the spec: `Config.ValidateVADParams` is called by
`applyStreamConfig` but its definition is not among the provided sources
(only the older `Config.Validate` is).  Per the spec's StreamConfig ranges
it accepts exactly `threshold ∈ [0,1]`, `min_speech_ms ∈ (0,60000]` and
`min_silence_ms ∈ (0,60000]`. -/
def Config.ValidateVADParams (c : Config) : Except ConfigError Unit :=
  if 0 ≤ c.Threshold ∧ c.Threshold ≤ 1 ∧
      0 < c.MinSpeechDurationMs ∧ c.MinSpeechDurationMs ≤ 60000 ∧
      0 < c.MinSilenceDurationMs ∧ c.MinSilenceDurationMs ≤ 60000 then
    .ok ()
  else
    .error .vadParamsOutOfRange

/-- `applyStreamConfig` (src/internal/server/server.go, newer revision):
blank input is a no-op; malformed JSON is an error; a present
`speech_pad_ms` is rejected; otherwise the provided fields override the
per-stream copy and the result is validated. -/
def applyStreamConfig (configJson : ConfigJson) (cfg : Config) :
    Except ConfigError Config :=
  match configJson with
  | .absent => .ok cfg
  | .malformed => .error .invalidJson
  | .parsed th sp si pad =>
    if pad.isSome then
      .error .speechPadUnsupported
    else
      let cfg := { cfg with Threshold := th.getD cfg.Threshold }
      let cfg := { cfg with MinSpeechDurationMs := sp.getD cfg.MinSpeechDurationMs }
      let cfg := { cfg with MinSilenceDurationMs := si.getD cfg.MinSilenceDurationMs }
      match cfg.ValidateVADParams with
      | .ok _ => .ok cfg
      | .error e => .error e

/-! ## Boundary detector (src/internal/server/server.go) -/

/-- `napv1.SpeechEventType`: START / ONGOING / END. -/
inductive SpeechEventType where
  | start
  | ongoing
  | endOfSpeech
  deriving DecidableEq, Repr

/-- A `napv1.SpeechEvent` as built by `boundaryDetector.process` (the
timestamp is stamped later by the orchestrator). -/
structure SpeechEvent where
  type : SpeechEventType
  Confidence : ℚ
  deriving DecidableEq, Repr

/-- `boundaryDetector`. -/
structure boundaryDetector where
  inSpeech : Bool
  speechFrames : Int
  silenceFrames : Int
  lastConfidence : ℚ
  minSpeechFrames : Int
  minSilenceFrames : Int
  deriving DecidableEq, Repr

/-- `ceilDiv(a, b) = (a + b - 1) / b` with Go's truncated integer
division. -/
def ceilDiv (a b : Int) : Int := Int.tdiv (a + b - 1) b

/-- `newBoundaryDetector(cfg, frameDurationMs)`. -/
def newBoundaryDetector (cfg : Config) (frameDurationMs : Int) :
    boundaryDetector where
  inSpeech := false
  speechFrames := 0
  silenceFrames := 0
  lastConfidence := 0
  minSpeechFrames := max 1 (ceilDiv cfg.MinSpeechDurationMs frameDurationMs)
  minSilenceFrames := max 1 (ceilDiv cfg.MinSilenceDurationMs frameDurationMs)

namespace boundaryDetector

/-- `boundaryDetector.process(result)`: hysteresis step, emitting at most
one event. -/
def process (bd : boundaryDetector) (result : Result) :
    boundaryDetector × List SpeechEvent :=
  let bd := { bd with lastConfidence := result.Confidence }
  if result.IsSpeech then
    let bd := { bd with speechFrames := bd.speechFrames + 1, silenceFrames := 0 }
    if !bd.inSpeech ∧ bd.speechFrames ≥ bd.minSpeechFrames then
      ({ bd with inSpeech := true }, [⟨.start, result.Confidence⟩])
    else if bd.inSpeech then
      (bd, [⟨.ongoing, result.Confidence⟩])
    else
      (bd, [])
  else
    let bd := { bd with silenceFrames := bd.silenceFrames + 1, speechFrames := 0 }
    if bd.inSpeech ∧ bd.silenceFrames ≥ bd.minSilenceFrames then
      ({ bd with inSpeech := false }, [⟨.endOfSpeech, result.Confidence⟩])
    else
      (bd, [])

/-- Folding `process` over a list of results, concatenating the emitted
events. -/
def run (bd : boundaryDetector) : List Result → boundaryDetector × List SpeechEvent
  | [] => (bd, [])
  | r :: rs =>
    let (bd1, evs) := bd.process r
    let (bd2, evs') := bd1.run rs
    (bd2, evs ++ evs')

end boundaryDetector

/-! ## Stream orchestrator (`Server.DetectSpeech`, src/internal/server/server.go)

The per-stream receive loop is modelled as a function over the list of
inbound requests (the list ending models the client half-close / `io.EOF`;
transport errors and cancellation are not modelled).  The monotonic anchor
`streamStart` is dropped: events carry the millisecond offset
`frameCount * frameDurationMs` that the Go code adds to the anchor.
Session/stream IDs only feed logging and are omitted.  The model is
generic over the engine, mirroring the `engine.Engine` interface; the
per-stream factory is an `Option σ` (`none` models a factory returning
`nil`). -/

/-- `MaxPCMChunkBytes = 1 << 20`. -/
def MaxPCMChunkBytes : Nat := 1048576

/-- `napv1.AudioFormat` (zero values mean "unspecified"). -/
structure AudioFormat where
  sampleRate : Nat
  encoding : String
  channels : Nat
  bitDepth : Nat
  deriving DecidableEq, Repr

/-- An inbound `napv1.DetectSpeechRequest`, reduced to the fields the loop
reads. -/
structure DetectSpeechRequest where
  pcmData : List Nat
  format : Option AudioFormat
  configJson : ConfigJson
  deriving DecidableEq

/-- The causes of the `codes.InvalidArgument` terminations of
`DetectSpeech`. -/
inductive InvalidReason where
  | unsupportedEncoding
  | unsupportedChannels
  | unsupportedBitDepth
  | unsupportedSampleRate
  | sampleRateChangedMidStream
  | sampleRateMismatchCache
  | formatRequired
  | missingSampleRate
  | oddPCMLength
  | pcmTooLarge
  | streamConfig (e : ConfigError)
  deriving DecidableEq, Repr

/-- How a `DetectSpeech` stream terminates: clean EOF, an
`InvalidArgument` status, or an `Internal` status. -/
inductive Outcome where
  | ok
  | invalidArgument (reason : InvalidReason)
  | internalError
  deriving DecidableEq, Repr

/-- The `engine.Engine` capability set used by the orchestrator, as pure
functions over an engine state `σ`. -/
structure EngineModel (σ : Type) where
  ProcessChunk : σ → List Nat → Nat → σ × Except EngineError (List Result)
  SetThreshold : σ → ℚ → σ
  FrameDurationMs : Nat

/-- The stub engine as an `EngineModel`. -/
def stubModel : EngineModel StubEngine where
  ProcessChunk := StubEngine.ProcessChunk
  SetThreshold := StubEngine.SetThreshold
  FrameDurationMs := stubFrameDurationMs

/-- The Silero engine as an `EngineModel`, for a given abstract inference
function. -/
def sileroModel {RNN : Type} (infer : RNN → List ℚ → ℚ × RNN) :
    EngineModel (SileroEngine RNN) where
  ProcessChunk := SileroEngine.ProcessChunk infer
  SetThreshold := SileroEngine.SetThreshold
  FrameDurationMs := sileroWindowSize * 1000 / ExpectedSampleRate

/-- An outbound `napv1.SpeechEvent` with its stamped timestamp, as the
millisecond audio-time offset `frameIndex * frameDurationMs` from the
stream anchor. -/
structure StampedEvent where
  type : SpeechEventType
  Confidence : ℚ
  timestampMs : Nat
  deriving DecidableEq, Repr

/-- The per-stream mutable state of `Server.DetectSpeech`.  `factoryCalls`
counts invocations of the `newEngine` factory (observable in the tests via
a counting factory). -/
structure StreamState (σ : Type) where
  streamCfg : Config
  eng : Option σ
  engineReady : Bool
  formatKnown : Bool
  bd : Option boundaryDetector
  cachedFormat : Option AudioFormat
  sampleRate : Nat
  frameDurationMs : Nat
  frameCount : Nat
  factoryCalls : Nat

/-- The state of a freshly opened stream. -/
def initialState {σ : Type} (cfg : Config) : StreamState σ where
  streamCfg := cfg
  eng := none
  engineReady := false
  formatKnown := false
  bd := none
  cachedFormat := none
  sampleRate := 0
  frameDurationMs := 0
  frameCount := 0
  factoryCalls := 0

/-- The encoding / channels / bit-depth validation block that
`DetectSpeech` repeats at format-cache time, at steady state, and at first
PCM: any non-zero field must match the accepted constants. -/
def checkFormatFields (af : AudioFormat) : Option InvalidReason :=
  if af.encoding ≠ "" ∧ af.encoding ≠ "pcm_s16le" then some .unsupportedEncoding
  else if af.channels ≠ 0 ∧ af.channels ≠ 1 then some .unsupportedChannels
  else if af.bitDepth ≠ 0 ∧ af.bitDepth ≠ 16 then some .unsupportedBitDepth
  else none

/-- The format section at the top of the receive loop: before the format is
established, cache (fully validating) any format with `sample_rate > 0`;
afterwards, check consistency of every message that carries a format. -/
def formatStage {σ : Type} (s : StreamState σ) (r : DetectSpeechRequest) :
    Except InvalidReason (StreamState σ) :=
  if s.formatKnown = false then
    match r.format with
    | some af =>
      if 0 < af.sampleRate then
        match checkFormatFields af with
        | some reason => .error reason
        | none =>
          if af.sampleRate ≠ ExpectedSampleRate then .error .unsupportedSampleRate
          else .ok { s with cachedFormat := some af }
      else .ok s
    | none => .ok s
  else
    match r.format with
    | some af =>
      if af.sampleRate ≠ 0 ∧ af.sampleRate ≠ s.sampleRate then
        .error .sampleRateChangedMidStream
      else
        match checkFormatFields af with
        | some reason => .error reason
        | none => .ok s
    | none => .ok s

/-- The first-PCM validation of the request's own format fields: its
consistency with the cached sample rate, then the field checks.  (In the Go
source this is the `if reqFmt := req.GetFormat(); reqFmt != nil` block at
first PCM.) -/
def reqFormatCheck {σ : Type} (s : StreamState σ) (r : DetectSpeechRequest) :
    Except InvalidReason Unit :=
  match r.format with
  | some reqFmt =>
    match s.cachedFormat with
    | some cf =>
      if reqFmt.sampleRate ≠ 0 ∧ reqFmt.sampleRate ≠ cf.sampleRate then
        .error .sampleRateMismatchCache
      else
        (match checkFormatFields reqFmt with
         | some reason => .error reason
         | none => .ok ())
    | none =>
      match checkFormatFields reqFmt with
      | some reason => .error reason
      | none => .ok ()
  | none => .ok ()

/-- The first-PCM format resolution: validate the fields of the request's
format (and its consistency with the cache), then determine the effective
format — cached if present, else the message's — and require a supported
sample rate. -/
def firstPCMFormatStage {σ : Type} (s : StreamState σ) (r : DetectSpeechRequest) :
    Except InvalidReason (StreamState σ) :=
  if s.formatKnown then .ok s
  else
    match reqFormatCheck s r with
    | .error reason => .error reason
    | .ok _ =>
      match s.cachedFormat.orElse (fun _ => r.format) with
      | none => .error .formatRequired
      | some af =>
        if af.sampleRate = 0 then .error .missingSampleRate
        else if af.sampleRate ≠ ExpectedSampleRate then .error .unsupportedSampleRate
        else .ok { s with sampleRate := af.sampleRate, formatKnown := true }

/-- `initEngine` (the closure in `DetectSpeech`): call the factory once,
set the threshold, obtain the frame duration (reject a non-positive one)
and build the boundary detector. -/
def initEngine {σ : Type} (M : EngineModel σ) (factory : Option σ)
    (s : StreamState σ) : StreamState σ × Option Outcome :=
  if s.engineReady then (s, none)
  else
    let s1 := { s with factoryCalls := s.factoryCalls + 1 }
    match factory with
    | none => (s1, some .internalError)
    | some e0 =>
      let e1 := M.SetThreshold e0 s1.streamCfg.Threshold
      let fd := M.FrameDurationMs
      if fd = 0 then ({ s1 with eng := some e1 }, some .internalError)
      else
        let s2 : StreamState σ :=
          { s1 with
            eng := some e1
            engineReady := true
            frameDurationMs := fd
            bd := some (newBoundaryDetector s1.streamCfg (fd : Int)) }
        (s2, none)

/-- The per-result emission loop: run the boundary detector on each
`Result`, stamp each emitted event with the audio-time offset
`frameCount * frameDurationMs`, and advance `frameCount` once per result. -/
def emitLoop (fd : Nat) (bd : boundaryDetector) (frameCount : Nat) :
    List Result → boundaryDetector × Nat × List StampedEvent
  | [] => (bd, frameCount, [])
  | r :: rs =>
    let stamped := (bd.process r).2.map
      (fun e => StampedEvent.mk e.type e.Confidence (frameCount * fd))
    let el := emitLoop fd (bd.process r).1 (frameCount + 1) rs
    (el.1, el.2.1, stamped ++ el.2.2)

/-- The PCM phase of one loop iteration, entered after the first-PCM format
resolution succeeded: PCM length validation, lazy config application and
engine construction, then the engine call and the emission loop. -/
def pcmPhase {σ : Type} (M : EngineModel σ) (factory : Option σ)
    (s2 : StreamState σ) (r : DetectSpeechRequest) :
    StreamState σ × List StampedEvent × Option Outcome :=
  if r.pcmData.length % 2 ≠ 0 then
    (s2, [], some (.invalidArgument .oddPCMLength))
  else if r.pcmData.length > MaxPCMChunkBytes then
    (s2, [], some (.invalidArgument .pcmTooLarge))
  else
    let afterInit : StreamState σ × Option Outcome :=
      if s2.engineReady = false then
        match applyStreamConfig r.configJson s2.streamCfg with
        | .error ce => (s2, some (.invalidArgument (.streamConfig ce)))
        | .ok cfg1 => initEngine M factory { s2 with streamCfg := cfg1 }
      else (s2, none)
    match afterInit with
    | (s3, some o) => (s3, [], some o)
    | (s3, none) =>
      match s3.eng, s3.bd with
      | some e, some bd =>
        let pr := M.ProcessChunk e r.pcmData s3.sampleRate
        match pr.2 with
        | .error _ => ({ s3 with eng := some pr.1 }, [], some .internalError)
        | .ok results =>
          let el := emitLoop s3.frameDurationMs bd s3.frameCount results
          ({ s3 with eng := some pr.1, bd := some el.1, frameCount := el.2.1 },
            el.2.2, none)
      | _, _ => (s3, [], some .internalError)

/-- One iteration of the `DetectSpeech` receive loop on one inbound
request.  The third component is `none` to continue receiving, or
`some o` when the handler returns with outcome `o`. -/
def processReq {σ : Type} (M : EngineModel σ) (factory : Option σ)
    (s0 : StreamState σ) (r : DetectSpeechRequest) :
    StreamState σ × List StampedEvent × Option Outcome :=
  match formatStage s0 r with
  | .error reason => (s0, [], some (.invalidArgument reason))
  | .ok s1 =>
    if r.pcmData.isEmpty then
      if s1.engineReady = false then
        match applyStreamConfig r.configJson s1.streamCfg with
        | .error ce => (s1, [], some (.invalidArgument (.streamConfig ce)))
        | .ok cfg1 => ({ s1 with streamCfg := cfg1 }, [], none)
      else (s1, [], none)
    else
      match firstPCMFormatStage s1 r with
      | .error reason => (s1, [], some (.invalidArgument reason))
      | .ok s2 => pcmPhase M factory s2 r

/-- The EOF flush: when the client half-closes and the stream is inside a
speech segment, synthesise one END event from the last confidence and the
next audio-time slot. -/
def eofFlush {σ : Type} (s : StreamState σ) : List StampedEvent :=
  match s.bd with
  | some bd =>
    if bd.inSpeech then
      [⟨.endOfSpeech, bd.lastConfidence, s.frameCount * s.frameDurationMs⟩]
    else []
  | none => []

/-- The whole `DetectSpeech` handler over a list of inbound requests, from
a given per-stream state: events sent, final state, and termination
outcome.  An exhausted request list is the client half-close (`io.EOF`). -/
def DetectSpeechLoop {σ : Type} (M : EngineModel σ) (factory : Option σ) :
    StreamState σ → List DetectSpeechRequest →
    List StampedEvent × StreamState σ × Outcome
  | s, [] => (eofFlush s, s, .ok)
  | s, r :: rs =>
    match processReq M factory s r with
    | (s1, evs, some o) => (evs, s1, o)
    | (s1, evs, none) =>
      let (evs', s2, o) := DetectSpeechLoop M factory s1 rs
      (evs ++ evs', s2, o)

/-- The same loop without the EOF flush (only the events emitted while
processing requests), used to isolate what EOF adds. -/
def DetectSpeechChunks {σ : Type} (M : EngineModel σ) (factory : Option σ) :
    StreamState σ → List DetectSpeechRequest →
    List StampedEvent × StreamState σ × Outcome
  | s, [] => ([], s, .ok)
  | s, r :: rs =>
    match processReq M factory s r with
    | (s1, evs, some o) => (evs, s1, o)
    | (s1, evs, none) =>
      let (evs', s2, o) := DetectSpeechChunks M factory s1 rs
      (evs ++ evs', s2, o)

/-! ## Auxiliary definitions used by the statements -/

/-- Feeding a list of chunks to the stub engine in order at a fixed sample
rate, concatenating the emitted results; processing stops at the first
error (as a stream does). -/
def StubEngine.feedAll (sr : Nat) :
    StubEngine → List (List Nat) → StubEngine × Except EngineError (List Result)
  | e, [] => (e, .ok [])
  | e, c :: cs =>
    let pr := StubEngine.ProcessChunk e c sr
    match pr.2 with
    | .error err => (pr.1, .error err)
    | .ok rs =>
      let rest := feedAll sr pr.1 cs
      match rest.2 with
      | .error err => (rest.1, .error err)
      | .ok rs2 => (rest.1, .ok (rs ++ rs2))

/-- The subsequence of boundary (START/END) event types of an emitted event
list; ONGOING events carry no boundary transition. -/
def boundaryEvents (evs : List SpeechEvent) : List SpeechEventType :=
  (evs.map (fun e => e.type)).filter (fun t => decide (t ≠ SpeechEventType.ongoing))

/-- Alternation of boundary events: read from a state with `in_speech = b`,
the START/END subsequence alternates — START only out of speech, END only
in speech — and leaves `in_speech = b2`. -/
inductive AltBoundary : Bool → List SpeechEventType → Bool → Prop
  | nil (b : Bool) : AltBoundary b [] b
  | cons_start {l : List SpeechEventType} {b2 : Bool} :
      AltBoundary true l b2 → AltBoundary false (SpeechEventType.start :: l) b2
  | cons_end {l : List SpeechEventType} {b2 : Bool} :
      AltBoundary false l b2 → AltBoundary true (SpeechEventType.endOfSpeech :: l) b2

/-- A format carrying some non-zero field that does not match the accepted
constants (`pcm_s16le`, mono, 16-bit). -/
def badFormatField (af : AudioFormat) : Prop :=
  (af.encoding ≠ "" ∧ af.encoding ≠ "pcm_s16le") ∨
  (af.channels ≠ 0 ∧ af.channels ≠ 1) ∨
  (af.bitDepth ≠ 0 ∧ af.bitDepth ≠ 16)

/-- The invalid-first-PCM conditions enumerated by the specification, for a
non-empty PCM message `r` arriving at pre-format state `s`: odd PCM length,
oversize PCM, missing effective format, unsupported (or zero) effective
sample rate, a bad non-zero format field, or a sample rate conflicting with
the cached format. -/
def FirstPCMInvalid {σ : Type} (s : StreamState σ) (r : DetectSpeechRequest) : Prop :=
  r.pcmData.length % 2 = 1 ∨
  r.pcmData.length > MaxPCMChunkBytes ∨
  s.cachedFormat.orElse (fun _ => r.format) = none ∨
  (∃ af, s.cachedFormat.orElse (fun _ => r.format) = some af ∧
    af.sampleRate ≠ ExpectedSampleRate) ∨
  (∃ af, r.format = some af ∧ badFormatField af) ∨
  (∃ cf af, s.cachedFormat = some cf ∧ r.format = some af ∧
    af.sampleRate ≠ 0 ∧ af.sampleRate ≠ cf.sampleRate)

/-- Well-formedness of the cached format: the code only caches formats it
has fully validated, so any cached format has the expected sample rate and
no bad field.  Holds initially (no cache) and is preserved by every loop
iteration. -/
def CachedWF {σ : Type} (s : StreamState σ) : Prop :=
  ∀ cf, s.cachedFormat = some cf →
    cf.sampleRate = ExpectedSampleRate ∧ checkFormatFields cf = none

/-- A trivial inference function over a unit RNN state, used to instantiate
the Silero model at concrete inputs. -/
def constInfer : Unit → List ℚ → ℚ × Unit := fun st _w => (1 / 2, st)

/-- A freshly constructed Silero engine over the unit RNN state. -/
def sileroUnitEngine : SileroEngine Unit := ⟨[], (), 1 / 2⟩

/-- Stream configuration used by concrete runs below: threshold 0.5,
`min_speech_duration_ms = 20` (one stub frame), `min_silence_duration_ms =
40` (two stub frames). -/
def ceCfg : Config := ⟨1 / 2, 20, 40⟩

/-- First request of the concrete run: 62720 zero bytes (98 stub frames) at
16 kHz. -/
def ceReq1 : DetectSpeechRequest :=
  ⟨List.replicate 62720 0, some ⟨16000, "", 0, 0⟩, .absent⟩

/-- Second request of the concrete run: 1920 zero bytes (3 stub frames). -/
def ceReq2 : DetectSpeechRequest := ⟨List.replicate 1920 0, none, .absent⟩

/-- An inference function over a window-counting RNN state: the first
window is speech (probability 1), every later window silence
(probability 0). -/
def c3Infer : Nat → List ℚ → ℚ × Nat := fun n _w => (if n = 0 then 1 else 0, n + 1)

/-- A freshly constructed Silero engine over the counting state. -/
def c3Engine : SileroEngine Nat := ⟨[], 0, 1 / 2⟩

/-- Configuration of the Silero counterexample run: threshold 0.5, one
32 ms frame of speech to start a segment, two frames of silence to end
it. -/
def c3Cfg : Config := ⟨1 / 2, 32, 64⟩

/-- A single request carrying three Silero windows (3072 zero bytes) at
16 kHz. -/
def c3Req : DetectSpeechRequest :=
  ⟨List.replicate 3072 0, some ⟨16000, "", 0, 0⟩, .absent⟩

/-- A first-PCM request whose body is a single (odd-length) byte. -/
def c5Req : DetectSpeechRequest := ⟨[0], some ⟨16000, "", 0, 0⟩, .absent⟩

/-- A mid-speech boundary-detector state, used to exercise the EOF
flush. -/
def c8Bd : boundaryDetector := ⟨true, 3, 0, 7 / 10, 1, 2⟩

/-- A stream state inside a speech segment after three stub frames. -/
def c8State : StreamState StubEngine :=
  { initialState ceCfg with bd := some c8Bd, frameCount := 3, frameDurationMs := 20 }

/-- A PCM-free request whose `config_json` is malformed JSON. -/
def c7Req : DetectSpeechRequest := ⟨[], none, .malformed⟩

/-! ## Characterisation of the stub engine's drain loop -/

/-- The toggle-counter update performed per consumed frame, on the
(counter, speaking) pair alone. -/
def stepCS (cs : Nat × Bool) : Nat × Bool :=
  if cs.1 + 1 ≥ StubToggleInterval then (0, !cs.2) else (cs.1 + 1, cs.2)

namespace StubEngine

lemma stubSamplesPerFrame_pos : 0 < stubSamplesPerFrame := by decide

lemma step_eq (e : StubEngine) :
    step e = (⟨(stepCS (e.counter, e.speaking)).1, (stepCS (e.counter, e.speaking)).2,
               e.pcmBuf - stubSamplesPerFrame⟩,
              ⟨(stepCS (e.counter, e.speaking)).2, StubConfidence⟩) := by
  simp only [step, stepCS]
  split <;> simp_all

/-- Full characterisation of the drain loop: with enough fuel it consumes
`pcmBuf / 320` frames, leaves `pcmBuf % 320` samples buffered, advances the
toggle state by `pcmBuf / 320` iterations of `stepCS`, and emits one
`Result` per frame whose phase is the toggle state after that frame. -/
lemma drainFuel_eq (fuel : Nat) :
    ∀ e : StubEngine, e.pcmBuf ≤ fuel →
    drainFuel fuel e =
      (⟨(stepCS^[e.pcmBuf / stubSamplesPerFrame] (e.counter, e.speaking)).1,
        (stepCS^[e.pcmBuf / stubSamplesPerFrame] (e.counter, e.speaking)).2,
        e.pcmBuf % stubSamplesPerFrame⟩,
       (List.range (e.pcmBuf / stubSamplesPerFrame)).map
         (fun i => ⟨(stepCS^[i + 1] (e.counter, e.speaking)).2, StubConfidence⟩)) := by
  induction fuel with
  | zero =>
    intro e he
    have h0 : e.pcmBuf = 0 := Nat.le_zero.mp he
    cases e with
    | mk c sp b =>
      simp only at h0
      subst h0
      simp [drainFuel]
  | succ fuel ih =>
    intro e he
    by_cases h : e.pcmBuf ≥ stubSamplesPerFrame
    · have hdiv : e.pcmBuf / stubSamplesPerFrame =
          (e.pcmBuf - stubSamplesPerFrame) / stubSamplesPerFrame + 1 :=
        Nat.div_eq_sub_div stubSamplesPerFrame_pos h
      have hmod : e.pcmBuf % stubSamplesPerFrame =
          (e.pcmBuf - stubSamplesPerFrame) % stubSamplesPerFrame :=
        Nat.mod_eq_sub_mod h
      have hle : e.pcmBuf - stubSamplesPerFrame ≤ fuel := by
        have : 0 < stubSamplesPerFrame := stubSamplesPerFrame_pos
        omega
      have hrec := ih ⟨(stepCS (e.counter, e.speaking)).1,
        (stepCS (e.counter, e.speaking)).2, e.pcmBuf - stubSamplesPerFrame⟩ hle
      simp only [drainFuel, h, if_pos, step_eq, hrec, Prod.mk.injEq, mk.injEq]
      rw [hdiv, hmod, List.range_succ_eq_map]
      simp only [List.map_cons, List.map_map, Function.iterate_succ_apply,
        Function.iterate_zero, id_eq, zero_add, Prod.mk.eta]
      refine ⟨⟨trivial, trivial, trivial⟩, ?_⟩
      congr 1
    · have hlt : e.pcmBuf < stubSamplesPerFrame := Nat.lt_of_not_le h
      have hdiv : e.pcmBuf / stubSamplesPerFrame = 0 := Nat.div_eq_of_lt hlt
      have hmod : e.pcmBuf % stubSamplesPerFrame = e.pcmBuf := Nat.mod_eq_of_lt hlt
      simp [drainFuel, h, hdiv, hmod]

/-- The drain loop in closed form. -/
lemma drain_eq (e : StubEngine) :
    drain e =
      (⟨(stepCS^[e.pcmBuf / stubSamplesPerFrame] (e.counter, e.speaking)).1,
        (stepCS^[e.pcmBuf / stubSamplesPerFrame] (e.counter, e.speaking)).2,
        e.pcmBuf % stubSamplesPerFrame⟩,
       (List.range (e.pcmBuf / stubSamplesPerFrame)).map
         (fun i => ⟨(stepCS^[i + 1] (e.counter, e.speaking)).2, StubConfidence⟩)) :=
  drainFuel_eq e.pcmBuf e le_rfl

/-- Results of the drain loop all carry the fixed stub confidence. -/
lemma drainFuel_confidence (fuel : Nat) :
    ∀ (e : StubEngine) (r : Result), r ∈ (drainFuel fuel e).2 →
      r.Confidence = StubConfidence := by
  induction fuel with
  | zero => intro e r hr; simp [drainFuel] at hr
  | succ fuel ih =>
    intro e r hr
    by_cases h : e.pcmBuf ≥ stubSamplesPerFrame
    · simp only [drainFuel, h, if_pos, step_eq, List.mem_cons] at hr
      rcases hr with hr | hr
      · rw [hr]
      · exact ih _ r hr
    · simp [drainFuel, h] at hr

/-- `ProcessChunk` at the expected sample rate on even-length input, in
closed form. -/
lemma ProcessChunk_eq (e : StubEngine) (pcm : List Nat)
    (heven : pcm.length % 2 = 0) :
    ProcessChunk e pcm ExpectedSampleRate =
      (⟨(stepCS^[(e.pcmBuf + pcm.length / 2) / stubSamplesPerFrame] (e.counter, e.speaking)).1,
        (stepCS^[(e.pcmBuf + pcm.length / 2) / stubSamplesPerFrame] (e.counter, e.speaking)).2,
        (e.pcmBuf + pcm.length / 2) % stubSamplesPerFrame⟩,
       .ok ((List.range ((e.pcmBuf + pcm.length / 2) / stubSamplesPerFrame)).map
         (fun i => ⟨(stepCS^[i + 1] (e.counter, e.speaking)).2, StubConfidence⟩))) := by
  simp [ProcessChunk, heven, drain_eq]

end StubEngine

/-! ## Buffer arithmetic of the Silero engine's drain loop -/

lemma pcmToFloat32_length : ∀ l : List Nat, (pcmToFloat32 l).length = l.length / 2
  | [] => by simp [pcmToFloat32]
  | [b] => by simp [pcmToFloat32]
  | b0 :: b1 :: rest => by
    simp only [pcmToFloat32, List.length_cons, pcmToFloat32_length rest]
    omega

namespace SileroEngine

variable {RNN : Type} (infer : RNN → List ℚ → ℚ × RNN)

lemma sileroWindowSize_pos : 0 < sileroWindowSize := by norm_num [sileroWindowSize]

/-- Window-count arithmetic of the drain loop, for any inference function:
with enough fuel it emits one `Result` per full 512-sample window and
leaves `length % 512` samples buffered, preserving the threshold. -/
lemma drainFuel_len (fuel : Nat) :
    ∀ e : SileroEngine RNN, e.pcmBuf.length ≤ fuel →
      (drainFuel infer fuel e).1.pcmBuf.length = e.pcmBuf.length % sileroWindowSize ∧
      (drainFuel infer fuel e).2.length = e.pcmBuf.length / sileroWindowSize ∧
      (drainFuel infer fuel e).1.threshold = e.threshold := by
  induction fuel with
  | zero =>
    intro e he
    have h0 : e.pcmBuf.length = 0 := Nat.le_zero.mp he
    simp [drainFuel, h0]
  | succ fuel ih =>
    intro e he
    by_cases h : e.pcmBuf.length ≥ sileroWindowSize
    · have hdrop : (e.pcmBuf.drop sileroWindowSize).length =
          e.pcmBuf.length - sileroWindowSize := by
        simp [List.length_drop]
      have hle : (e.pcmBuf.drop sileroWindowSize).length ≤ fuel := by
        rw [hdrop]
        have : 0 < sileroWindowSize := sileroWindowSize_pos
        omega
      have hrec := ih { e with
        pcmBuf := e.pcmBuf.drop sileroWindowSize
        state := (infer e.state (e.pcmBuf.take sileroWindowSize)).2 } hle
      have hdiv : e.pcmBuf.length / sileroWindowSize =
          (e.pcmBuf.length - sileroWindowSize) / sileroWindowSize + 1 :=
        Nat.div_eq_sub_div sileroWindowSize_pos h
      have hmod : e.pcmBuf.length % sileroWindowSize =
          (e.pcmBuf.length - sileroWindowSize) % sileroWindowSize :=
        Nat.mod_eq_sub_mod h
      simp only [drainFuel, h, if_pos]
      refine ⟨?_, ?_, ?_⟩
      · rw [hrec.1, hdrop, hmod]
      · simp only [List.length_cons, hrec.2.1, hdrop, hdiv]
      · exact hrec.2.2
    · have hlt : e.pcmBuf.length < sileroWindowSize := Nat.lt_of_not_le h
      simp [drainFuel, h, Nat.div_eq_of_lt hlt, Nat.mod_eq_of_lt hlt]

/-- `ProcessChunk` arithmetic at the expected sample rate on even-length
input: success, one result per full window, residual below one window. -/
lemma ProcessChunk_len (e : SileroEngine RNN) (pcm : List Nat)
    (heven : pcm.length % 2 = 0) :
    (ProcessChunk infer e pcm ExpectedSampleRate).1.pcmBuf.length =
        (e.pcmBuf.length + pcm.length / 2) % sileroWindowSize ∧
    (ProcessChunk infer e pcm ExpectedSampleRate).2 =
        .ok (drain infer { e with pcmBuf := e.pcmBuf ++ pcmToFloat32 pcm }).2 ∧
    (drain infer { e with pcmBuf := e.pcmBuf ++ pcmToFloat32 pcm }).2.length =
        (e.pcmBuf.length + pcm.length / 2) / sileroWindowSize := by
  have hlen : (e.pcmBuf ++ pcmToFloat32 pcm).length =
      e.pcmBuf.length + pcm.length / 2 := by
    simp [List.length_append, pcmToFloat32_length]
  have h := drainFuel_len infer
    ({ e with pcmBuf := e.pcmBuf ++ pcmToFloat32 pcm } : SileroEngine RNN).pcmBuf.length
    { e with pcmBuf := e.pcmBuf ++ pcmToFloat32 pcm } le_rfl
  refine ⟨?_, ?_, ?_⟩
  · simp only [ProcessChunk, heven, ne_eq, not_true_eq_false, if_neg, if_false]
    simpa [drain, hlen] using h.1
  · simp [ProcessChunk, heven]
  · simpa [drain, hlen] using h.2.1

end SileroEngine

/-! ## Helper lemmas about the boundary detector -/

namespace boundaryDetector

lemma process_min_const (bd : boundaryDetector) (r : Result) :
    (bd.process r).1.minSpeechFrames = bd.minSpeechFrames ∧
    (bd.process r).1.minSilenceFrames = bd.minSilenceFrames := by
  simp only [process]
  split_ifs <;> simp

/-- A run over speech frames that stays strictly below the START threshold
emits nothing and just accumulates the speech counter. -/
lemma run_speech_short : ∀ (rs : List Result) (bd : boundaryDetector),
    (∀ r ∈ rs, r.IsSpeech = true) → bd.inSpeech = false →
    bd.speechFrames + (rs.length : Int) < bd.minSpeechFrames →
    (bd.run rs).2 = [] ∧ (bd.run rs).1.inSpeech = false
  | [], bd => by intro _ hin _; simp [run, hin]
  | r :: rs, bd => by
    intro hsp hin hlt
    have hr : r.IsSpeech = true := hsp r (List.mem_cons_self r rs)
    have hnot : ¬(bd.speechFrames + 1 ≥ bd.minSpeechFrames) := by
      simp only [List.length_cons] at hlt
      push_cast at hlt
      omega
    have hstep : bd.process r =
        ({ bd with
            lastConfidence := r.Confidence
            speechFrames := bd.speechFrames + 1
            silenceFrames := 0 }, []) := by
      simp only [process, hr, if_pos, hin]
      simp [hnot]
    have hrec := run_speech_short rs
      { bd with
          lastConfidence := r.Confidence
          speechFrames := bd.speechFrames + 1
          silenceFrames := 0 }
      (fun x hx => hsp x (List.mem_cons_of_mem r hx)) hin
      (by simp only [List.length_cons] at hlt; push_cast at hlt ⊢; omega)
    simp only [run, hstep, List.nil_append]
    exact hrec

/-- A run over silence frames from outside a speech segment emits
nothing. -/
lemma run_silence_out : ∀ (ss : List Result) (bd : boundaryDetector),
    (∀ r ∈ ss, r.IsSpeech = false) → bd.inSpeech = false →
    (bd.run ss).2 = [] ∧ (bd.run ss).1.inSpeech = false
  | [], bd => by intro _ hin; simp [run, hin]
  | r :: rs, bd => by
    intro hsl hin
    have hr : r.IsSpeech = false := hsl r (List.mem_cons_self r rs)
    have hstep : bd.process r =
        ({ bd with
            lastConfidence := r.Confidence
            silenceFrames := bd.silenceFrames + 1
            speechFrames := 0 }, []) := by
      simp only [process, hr]
      simp [hin]
    have hrec := run_silence_out rs
      { bd with
          lastConfidence := r.Confidence
          silenceFrames := bd.silenceFrames + 1
          speechFrames := 0 }
      (fun x hx => hsl x (List.mem_cons_of_mem r hx)) hin
    simp only [run, hstep, List.nil_append]
    exact hrec

/-- `run` distributes over list append. -/
lemma run_append (l1 l2 : List Result) : ∀ bd : boundaryDetector,
    bd.run (l1 ++ l2) =
      (((bd.run l1).1.run l2).1, (bd.run l1).2 ++ ((bd.run l1).1.run l2).2) := by
  induction l1 with
  | nil => intro bd; simp [run]
  | cons r rs ih =>
    intro bd
    simp only [List.cons_append, run, List.append_eq]
    rw [ih ((bd.process r).1)]
    simp [List.append_assoc]

end boundaryDetector

/-! ## Alternation of boundary events -/

lemma AltBoundary.append {b b1 b2 : Bool} {l1 l2 : List SpeechEventType}
    (h1 : AltBoundary b l1 b1) (h2 : AltBoundary b1 l2 b2) :
    AltBoundary b (l1 ++ l2) b2 := by
  induction h1 with
  | nil => simpa using h2
  | cons_start _ ih => exact .cons_start (ih h2)
  | cons_end _ ih => exact .cons_end (ih h2)

lemma AltBoundary.chain_ne {b b2 : Bool} {l : List SpeechEventType}
    (h : AltBoundary b l b2) : List.Chain' (· ≠ ·) l := by
  induction h with
  | nil => exact List.chain'_nil
  | cons_start h ih =>
    cases h with
    | nil => simp
    | cons_end h' => exact List.Chain'.cons (by simp) ih
  | cons_end h ih =>
    cases h with
    | nil => simp
    | cons_start h' => exact List.Chain'.cons (by simp) ih

lemma AltBoundary.count_eq {b b2 : Bool} {l : List SpeechEventType}
    (h : AltBoundary b l b2) :
    l.count SpeechEventType.start + (if b then 1 else 0) =
      l.count SpeechEventType.endOfSpeech + (if b2 then 1 else 0) := by
  induction h with
  | nil => rfl
  | cons_start h ih => simp only [List.count_cons] at ih ⊢; simp at ih ⊢; omega
  | cons_end h ih => simp only [List.count_cons] at ih ⊢; simp at ih ⊢; omega

lemma AltBoundary.head_not_end {b2 : Bool} {l : List SpeechEventType}
    (h : AltBoundary false l b2) :
    l.head? ≠ some SpeechEventType.endOfSpeech := by
  cases h <;> simp

lemma boundaryEvents_append (evs evs' : List SpeechEvent) :
    boundaryEvents (evs ++ evs') = boundaryEvents evs ++ boundaryEvents evs' := by
  simp [boundaryEvents]

/-- One detector step only emits boundary transitions consistent with the
`in_speech` flag: START leaving silence, END leaving speech. -/
lemma boundaryDetector.process_alt (bd : boundaryDetector) (r : Result) :
    AltBoundary bd.inSpeech (boundaryEvents (bd.process r).2)
      ((bd.process r).1.inSpeech) := by
  simp only [boundaryDetector.process]
  by_cases hs : r.IsSpeech
  · simp only [hs, if_pos]
    by_cases hin : bd.inSpeech
    · simp [hin, boundaryEvents, AltBoundary.nil]
    · by_cases hcnt : bd.speechFrames + 1 ≥ bd.minSpeechFrames
      · simp only [hin, hcnt]
        simp [boundaryEvents, hin]
        exact .cons_start (.nil true)
      · simp only [hin, hcnt]
        simp [boundaryEvents, hin]
        exact .nil false
  · simp only [hs]
    by_cases hin : bd.inSpeech
    · by_cases hcnt : bd.silenceFrames + 1 ≥ bd.minSilenceFrames
      · simp only [hin, hcnt]
        simp [boundaryEvents, hin]
        exact .cons_end (.nil false)
      · simp only [hin, hcnt]
        simp [boundaryEvents, hin]
        exact .nil true
    · simp only [hin]
      simp [boundaryEvents, hin]
      exact .nil false

/-- Boundary events of a whole run alternate. -/
lemma boundaryDetector.run_alt : ∀ (rs : List Result) (bd : boundaryDetector),
    AltBoundary bd.inSpeech (boundaryEvents (bd.run rs).2)
      ((bd.run rs).1.inSpeech)
  | [], bd => by simpa [boundaryDetector.run, boundaryEvents] using .nil bd.inSpeech
  | r :: rs, bd => by
    have h1 := boundaryDetector.process_alt bd r
    have h2 := boundaryDetector.run_alt rs (bd.process r).1
    simp only [boundaryDetector.run]
    rw [boundaryEvents_append]
    exact h1.append h2

/-! ## Claim C2 -/

/-- C2: On a speech result the detector increments the consecutive-speech
counter and zeroes the silence counter, emits exactly one START iff it was
out of speech and the incremented counter reached `min_speech_frames`
(entering speech), exactly one ONGOING iff it was already in speech, and
nothing otherwise; on a silence result it increments the silence counter
and zeroes the speech counter, emits exactly one END iff it was in speech
and the incremented counter reached `min_silence_frames` (leaving speech),
and nothing otherwise; consequently a speech burst shorter than
`min_speech_frames` immediately followed by silence produces no events. -/
theorem C2_boundary_detector_step :
    (∀ (bd : boundaryDetector) (r : Result), r.IsSpeech = true →
      (bd.process r).1.speechFrames = bd.speechFrames + 1 ∧
      (bd.process r).1.silenceFrames = 0 ∧
      ((bd.process r).2 = [⟨.start, r.Confidence⟩] ↔
        (bd.inSpeech = false ∧ bd.speechFrames + 1 ≥ bd.minSpeechFrames)) ∧
      ((bd.process r).2 = [⟨.start, r.Confidence⟩] → (bd.process r).1.inSpeech = true) ∧
      ((bd.process r).2 = [⟨.ongoing, r.Confidence⟩] ↔ bd.inSpeech = true) ∧
      (bd.inSpeech = false → bd.speechFrames + 1 < bd.minSpeechFrames →
        (bd.process r).2 = [] ∧ (bd.process r).1.inSpeech = false)) ∧
    (∀ (bd : boundaryDetector) (r : Result), r.IsSpeech = false →
      (bd.process r).1.silenceFrames = bd.silenceFrames + 1 ∧
      (bd.process r).1.speechFrames = 0 ∧
      ((bd.process r).2 = [⟨.endOfSpeech, r.Confidence⟩] ↔
        (bd.inSpeech = true ∧ bd.silenceFrames + 1 ≥ bd.minSilenceFrames)) ∧
      ((bd.process r).2 = [⟨.endOfSpeech, r.Confidence⟩] →
        (bd.process r).1.inSpeech = false) ∧
      (¬(bd.inSpeech = true ∧ bd.silenceFrames + 1 ≥ bd.minSilenceFrames) →
        (bd.process r).2 = [])) ∧
    (∀ (bd : boundaryDetector) (rs ss : List Result),
      bd.inSpeech = false → bd.speechFrames = 0 →
      (∀ r ∈ rs, r.IsSpeech = true) → (rs.length : Int) < bd.minSpeechFrames →
      (∀ r ∈ ss, r.IsSpeech = false) →
      (bd.run (rs ++ ss)).2 = []) := by
  refine ⟨?_, ?_, ?_⟩
  · intro bd r hr
    by_cases hin : bd.inSpeech <;>
      by_cases hcnt : bd.speechFrames + 1 ≥ bd.minSpeechFrames <;>
        simp [boundaryDetector.process, hr, hin, hcnt]
  · intro bd r hr
    by_cases hin : bd.inSpeech <;>
      by_cases hcnt : bd.silenceFrames + 1 ≥ bd.minSilenceFrames <;>
        simp [boundaryDetector.process, hr, hin, hcnt]
  · intro bd rs ss hin h0 hsp hlen hsl
    rw [boundaryDetector.run_append]
    have h1 := boundaryDetector.run_speech_short rs bd hsp hin
      (by rw [h0]; simpa using hlen)
    have h2 := boundaryDetector.run_silence_out ss ((bd.run rs).1) hsl h1.2
    simp [h1.1, h2.1]

/-- Witness for C2 at a concrete input: a one-frame speech burst below a
two-frame START threshold followed by one silence frame emits nothing. -/
theorem C2_witness :
    ((newBoundaryDetector ⟨1 / 2, 40, 40⟩ 20).run
      ([⟨true, 1 / 2⟩] ++ [⟨false, 1 / 2⟩])).2 = [] :=
  C2_boundary_detector_step.2.2 (newBoundaryDetector ⟨1 / 2, 40, 40⟩ 20)
    [⟨true, 1 / 2⟩] [⟨false, 1 / 2⟩] rfl rfl (by decide) (by decide) (by decide)

/-! ## Claim C4 -/

/-- C4: From the initial detector state the boundary (START/END) events of
any run alternate — START only from outside speech, END only from inside —
so each complete speech-to-silence cycle contributes exactly one START and
one END (the START count exceeds the END count exactly by the final
`in_speech` flag), no two adjacent boundary events are equal, and the
sequence never begins with an END. -/
theorem C4_boundary_event_alternation (cfg : Config) (frameDurationMs : Int)
    (rs : List Result) :
    AltBoundary false
      (boundaryEvents ((newBoundaryDetector cfg frameDurationMs).run rs).2)
      (((newBoundaryDetector cfg frameDurationMs).run rs).1.inSpeech) ∧
    List.Chain' (· ≠ ·)
      (boundaryEvents ((newBoundaryDetector cfg frameDurationMs).run rs).2) ∧
    (boundaryEvents ((newBoundaryDetector cfg frameDurationMs).run rs).2).count
        SpeechEventType.start =
      (boundaryEvents ((newBoundaryDetector cfg frameDurationMs).run rs).2).count
        SpeechEventType.endOfSpeech +
        (if ((newBoundaryDetector cfg frameDurationMs).run rs).1.inSpeech then 1 else 0) ∧
    (boundaryEvents ((newBoundaryDetector cfg frameDurationMs).run rs).2).head? ≠
      some SpeechEventType.endOfSpeech := by
  have h : AltBoundary false
      (boundaryEvents ((newBoundaryDetector cfg frameDurationMs).run rs).2)
      (((newBoundaryDetector cfg frameDurationMs).run rs).1.inSpeech) :=
    boundaryDetector.run_alt rs (newBoundaryDetector cfg frameDurationMs)
  refine ⟨h, h.chain_ne, ?_, h.head_not_end⟩
  have hc := h.count_eq
  simp only [if_neg Bool.false_ne_true] at hc
  omega

/-! ## Claim C6 -/

/-- C6: For either engine, `ProcessChunk` fails exactly when the sample
rate differs from 16000 (with the wrong-sample-rate error) or the PCM
length is odd (with the odd-length error); in both failure cases the
engine state is returned untouched, and otherwise the call succeeds. -/
theorem C6_process_chunk_error_iff :
    (∀ (e : StubEngine) (pcm : List Nat) (sampleRate : Nat),
      (sampleRate ≠ ExpectedSampleRate →
        StubEngine.ProcessChunk e pcm sampleRate = (e, .error .wrongSampleRate)) ∧
      (sampleRate = ExpectedSampleRate → pcm.length % 2 = 1 →
        StubEngine.ProcessChunk e pcm sampleRate = (e, .error .oddPCMLength)) ∧
      (sampleRate = ExpectedSampleRate → pcm.length % 2 = 0 →
        ∃ rs, (StubEngine.ProcessChunk e pcm sampleRate).2 = .ok rs)) ∧
    (∀ (RNN : Type) (infer : RNN → List ℚ → ℚ × RNN) (e : SileroEngine RNN)
        (pcm : List Nat) (sampleRate : Nat),
      (sampleRate ≠ ExpectedSampleRate →
        SileroEngine.ProcessChunk infer e pcm sampleRate =
          (e, .error .wrongSampleRate)) ∧
      (sampleRate = ExpectedSampleRate → pcm.length % 2 = 1 →
        SileroEngine.ProcessChunk infer e pcm sampleRate =
          (e, .error .oddPCMLength)) ∧
      (sampleRate = ExpectedSampleRate → pcm.length % 2 = 0 →
        ∃ rs, (SileroEngine.ProcessChunk infer e pcm sampleRate).2 = .ok rs)) := by
  constructor
  · intro e pcm sampleRate
    refine ⟨?_, ?_, ?_⟩
    · intro h; simp [StubEngine.ProcessChunk, h]
    · intro h hodd; simp [StubEngine.ProcessChunk, h, hodd]
    · intro h heven; simp [StubEngine.ProcessChunk, h, heven]
  · intro RNN infer e pcm sampleRate
    refine ⟨?_, ?_, ?_⟩
    · intro h; simp [SileroEngine.ProcessChunk, h]
    · intro h hodd; simp [SileroEngine.ProcessChunk, h, hodd]
    · intro h heven; simp [SileroEngine.ProcessChunk, h, heven]

/-- Witness for C6: an odd stub chunk and a wrong-sample-rate Silero chunk
both fail with untouched state. -/
theorem C6_witness :
    StubEngine.ProcessChunk NewStubEngine [0] ExpectedSampleRate =
      (NewStubEngine, .error .oddPCMLength) ∧
    SileroEngine.ProcessChunk constInfer sileroUnitEngine [0, 0] 8000 =
      (sileroUnitEngine, .error .wrongSampleRate) :=
  ⟨(C6_process_chunk_error_iff.1 NewStubEngine [0] ExpectedSampleRate).2.1
      rfl (by decide),
   (C6_process_chunk_error_iff.2 Unit constInfer sileroUnitEngine [0, 0] 8000).1
      (by decide)⟩

/-! ## Claim C1 -/

/-- C1: For either engine, starting with fewer buffered samples than one
window, an even-length chunk at 16 kHz is processed successfully, yields
exactly `⌊(prior_buffered + len/2) / window⌋` results, leaves strictly
fewer than one window of residual samples, and an empty chunk yields an
empty result list. -/
theorem C1_process_chunk_window_count :
    (∀ (e : StubEngine) (pcm : List Nat),
      e.pcmBuf < stubSamplesPerFrame → pcm.length % 2 = 0 →
      ∃ rs, (StubEngine.ProcessChunk e pcm ExpectedSampleRate).2 = .ok rs ∧
        rs.length = (e.pcmBuf + pcm.length / 2) / stubSamplesPerFrame ∧
        (StubEngine.ProcessChunk e pcm ExpectedSampleRate).1.pcmBuf =
          (e.pcmBuf + pcm.length / 2) % stubSamplesPerFrame ∧
        (StubEngine.ProcessChunk e pcm ExpectedSampleRate).1.pcmBuf <
          stubSamplesPerFrame ∧
        (pcm = [] → rs = [])) ∧
    (∀ (RNN : Type) (infer : RNN → List ℚ → ℚ × RNN) (e : SileroEngine RNN)
        (pcm : List Nat),
      e.pcmBuf.length < sileroWindowSize → pcm.length % 2 = 0 →
      ∃ rs, (SileroEngine.ProcessChunk infer e pcm ExpectedSampleRate).2 = .ok rs ∧
        rs.length = (e.pcmBuf.length + pcm.length / 2) / sileroWindowSize ∧
        (SileroEngine.ProcessChunk infer e pcm ExpectedSampleRate).1.pcmBuf.length =
          (e.pcmBuf.length + pcm.length / 2) % sileroWindowSize ∧
        (SileroEngine.ProcessChunk infer e pcm ExpectedSampleRate).1.pcmBuf.length <
          sileroWindowSize ∧
        (pcm = [] → rs = [])) := by
  constructor
  · intro e pcm hbuf heven
    rw [StubEngine.ProcessChunk_eq e pcm heven]
    refine ⟨_, rfl, ?_, rfl, ?_, ?_⟩
    · simp
    · exact Nat.mod_lt _ StubEngine.stubSamplesPerFrame_pos
    · intro hnil
      subst hnil
      have hz : e.pcmBuf / stubSamplesPerFrame = 0 := Nat.div_eq_of_lt hbuf
      simp [hz]
  · intro RNN infer e pcm hbuf heven
    obtain ⟨hres, hok, hlen⟩ := SileroEngine.ProcessChunk_len infer e pcm heven
    refine ⟨_, hok, hlen, hres, ?_, ?_⟩
    · rw [hres]
      exact Nat.mod_lt _ SileroEngine.sileroWindowSize_pos
    · intro hnil
      subst hnil
      have hz : (e.pcmBuf.length + ([] : List Nat).length / 2) / sileroWindowSize = 0 := by
        simp only [List.length_nil, Nat.zero_div, Nat.add_zero]
        exact Nat.div_eq_of_lt hbuf
      have hlen2 := hlen
      rw [hz] at hlen2
      exact List.length_eq_zero.mp hlen2

/-- Witness for C1: one full stub frame (640 zero bytes) gives one result;
one full Silero window (1024 zero bytes) gives one result. -/
theorem C1_witness :
    (∃ rs, (StubEngine.ProcessChunk NewStubEngine (List.replicate 640 0)
        ExpectedSampleRate).2 = .ok rs ∧
      rs.length = (NewStubEngine.pcmBuf + (List.replicate 640 0).length / 2) /
        stubSamplesPerFrame ∧
      (StubEngine.ProcessChunk NewStubEngine (List.replicate 640 0)
          ExpectedSampleRate).1.pcmBuf =
        (NewStubEngine.pcmBuf + (List.replicate 640 0).length / 2) %
          stubSamplesPerFrame ∧
      (StubEngine.ProcessChunk NewStubEngine (List.replicate 640 0)
          ExpectedSampleRate).1.pcmBuf < stubSamplesPerFrame ∧
      (List.replicate 640 0 = ([] : List Nat) → rs = [])) ∧
    (∃ rs, (SileroEngine.ProcessChunk constInfer sileroUnitEngine
        (List.replicate 1024 0) ExpectedSampleRate).2 = .ok rs ∧
      rs.length = (sileroUnitEngine.pcmBuf.length +
          (List.replicate 1024 0).length / 2) / sileroWindowSize ∧
      (SileroEngine.ProcessChunk constInfer sileroUnitEngine
          (List.replicate 1024 0) ExpectedSampleRate).1.pcmBuf.length =
        (sileroUnitEngine.pcmBuf.length + (List.replicate 1024 0).length / 2) %
          sileroWindowSize ∧
      (SileroEngine.ProcessChunk constInfer sileroUnitEngine
          (List.replicate 1024 0) ExpectedSampleRate).1.pcmBuf.length <
        sileroWindowSize ∧
      (List.replicate 1024 0 = ([] : List Nat) → rs = [])) :=
  ⟨C1_process_chunk_window_count.1 NewStubEngine (List.replicate 640 0)
      (by decide) (by rw [List.length_replicate]),
   C1_process_chunk_window_count.2 Unit constInfer sileroUnitEngine
      (List.replicate 1024 0) (by decide) (by rw [List.length_replicate])⟩

/-! ## Multi-chunk behaviour of the stub engine -/

namespace StubEngine

/-- `ProcessChunk` of the stub only reads the chunk's length. -/
lemma ProcessChunk_length_only (e : StubEngine) (p q : List Nat) (sr : Nat)
    (h : p.length = q.length) :
    ProcessChunk e p sr = ProcessChunk e q sr := by
  simp [ProcessChunk, h]

/-- Successful `ProcessChunk` results all carry the fixed confidence. -/
lemma ProcessChunk_confidence (e : StubEngine) (p : List Nat) (sr : Nat)
    (rs : List Result) (h : (ProcessChunk e p sr).2 = .ok rs) :
    ∀ r ∈ rs, r.Confidence = StubConfidence := by
  by_cases h1 : sr ≠ ExpectedSampleRate
  · simp [ProcessChunk, h1] at h
  · by_cases h2 : p.length % 2 ≠ 0
    · simp [ProcessChunk, h1, h2] at h
    · simp only [ProcessChunk, h1, h2, if_neg, not_false_eq_true, if_false] at h
      simp only [Except.ok.injEq] at h
      intro r hr
      rw [← h] at hr
      exact drainFuel_confidence _ _ r hr

/-- `feedAll` only reads the chunks' lengths. -/
lemma feedAll_length_only (sr : Nat) : ∀ (cs ds : List (List Nat)) (e : StubEngine),
    cs.map List.length = ds.map List.length →
    feedAll sr e cs = feedAll sr e ds
  | [], [], _ => by intro _; rfl
  | [], _ :: _, _ => by intro h; simp at h
  | _ :: _, [], _ => by intro h; simp at h
  | c :: cs, d :: ds, e => by
    intro h
    simp only [List.map_cons, List.cons.injEq] at h
    have h1 := ProcessChunk_length_only e c d sr h.1
    have h2 := feedAll_length_only sr cs ds (ProcessChunk e d sr).1 h.2
    simp only [feedAll, h1, h2]

/-- All results of a successful `feedAll` carry the fixed confidence. -/
lemma feedAll_confidence (sr : Nat) : ∀ (cs : List (List Nat)) (e : StubEngine)
    (rs : List Result), (feedAll sr e cs).2 = .ok rs →
    ∀ r ∈ rs, r.Confidence = StubConfidence
  | [], e, rs => by
    intro h r hr
    simp only [feedAll, Except.ok.injEq] at h
    rw [← h] at hr
    simp at hr
  | c :: cs, e, rs => by
    intro h r hr
    rcases hpc : (ProcessChunk e c sr).2 with err | rs1
    · simp [feedAll, hpc] at h
    · rcases hrest : (feedAll sr (ProcessChunk e c sr).1 cs).2 with err | rs2
      · simp [feedAll, hpc, hrest] at h
      · simp only [feedAll, hpc, hrest, Except.ok.injEq] at h
        rw [← h] at hr
        rcases List.mem_append.mp hr with hr1 | hr2
        · exact ProcessChunk_confidence e c sr rs1 hpc r hr1
        · exact feedAll_confidence sr cs (ProcessChunk e c sr).1 rs2 hrest r hr2

/-- Closed form of `feedAll` from a sub-window buffer over even-length
chunks: the run succeeds and behaves as one big chunk holding the total
sample count. -/
lemma feedAll_even_eq : ∀ (cs : List (List Nat)) (e : StubEngine),
    (∀ c ∈ cs, c.length % 2 = 0) → e.pcmBuf < stubSamplesPerFrame →
    feedAll ExpectedSampleRate e cs =
      (⟨(stepCS^[(e.pcmBuf + (cs.map (fun c => c.length / 2)).sum) / stubSamplesPerFrame]
            (e.counter, e.speaking)).1,
        (stepCS^[(e.pcmBuf + (cs.map (fun c => c.length / 2)).sum) / stubSamplesPerFrame]
            (e.counter, e.speaking)).2,
        (e.pcmBuf + (cs.map (fun c => c.length / 2)).sum) % stubSamplesPerFrame⟩,
       .ok ((List.range ((e.pcmBuf + (cs.map (fun c => c.length / 2)).sum) /
            stubSamplesPerFrame)).map
         (fun i => ⟨(stepCS^[i + 1] (e.counter, e.speaking)).2, StubConfidence⟩)))
  | [], e => by
    intro _ hbuf
    have hdiv : e.pcmBuf / stubSamplesPerFrame = 0 := Nat.div_eq_of_lt hbuf
    have hmod : e.pcmBuf % stubSamplesPerFrame = e.pcmBuf := Nat.mod_eq_of_lt hbuf
    cases e with
    | mk c sp b =>
      simp only at hdiv hmod
      simp [feedAll, hdiv, hmod]
  | c :: cs, e => by
    intro heven hbuf
    have hc : c.length % 2 = 0 := heven c (List.mem_cons_self c cs)
    have hpc := ProcessChunk_eq e c hc
    have hmodlt : (e.pcmBuf + c.length / 2) % stubSamplesPerFrame <
        stubSamplesPerFrame := Nat.mod_lt _ stubSamplesPerFrame_pos
    have hrec := feedAll_even_eq cs
      ⟨(stepCS^[(e.pcmBuf + c.length / 2) / stubSamplesPerFrame] (e.counter, e.speaking)).1,
       (stepCS^[(e.pcmBuf + c.length / 2) / stubSamplesPerFrame] (e.counter, e.speaking)).2,
       (e.pcmBuf + c.length / 2) % stubSamplesPerFrame⟩
      (fun x hx => heven x (List.mem_cons_of_mem c hx)) hmodlt
    set b := e.pcmBuf with hb
    set m := c.length / 2 with hm
    set S := (cs.map (fun c => c.length / 2)).sum with hS
    set k1 := (b + m) / stubSamplesPerFrame with hk1
    have hsplit : b + m = stubSamplesPerFrame * k1 + (b + m) % stubSamplesPerFrame := by
      rw [hk1]
      exact (Nat.div_add_mod (b + m) stubSamplesPerFrame).symm
    set r := (b + m) % stubSamplesPerFrame with hr
    have h1 : b + (m + S) = stubSamplesPerFrame * k1 + (r + S) := by
      rw [← Nat.add_assoc, hsplit, Nat.add_assoc]
    have hK : (b + (m + S)) / stubSamplesPerFrame =
        k1 + (r + S) / stubSamplesPerFrame := by
      rw [h1, Nat.mul_add_div stubSamplesPerFrame_pos]
    have hM : (b + (m + S)) % stubSamplesPerFrame = (r + S) % stubSamplesPerFrame := by
      rw [h1, Nat.mul_add_mod]
    simp only [feedAll, hpc, hrec, List.map_cons, List.sum_cons, Prod.mk.injEq, mk.injEq,
      Prod.mk.eta, hK, hM, Except.ok.injEq]
    refine ⟨⟨?_, ?_, trivial⟩, ?_⟩
    · rw [← Function.iterate_add_apply, Nat.add_comm k1]
    · rw [← Function.iterate_add_apply, Nat.add_comm k1]
    rw [List.range_add, List.map_append, List.map_map]
    congr 1
    apply List.map_congr_left
    intro i _
    have hiter : stepCS^[i + 1] (stepCS^[k1] (e.counter, e.speaking)) =
        stepCS^[i + 1 + k1] (e.counter, e.speaking) := by
      rw [← Function.iterate_add_apply]
    have hidx : i + 1 + k1 = k1 + i + 1 := by omega
    simp only [Function.comp_apply, hiter, hidx]

/-- Total decoded samples of even-length chunks equal half the joined byte
length. -/
lemma sum_half_lengths : ∀ cs : List (List Nat), (∀ c ∈ cs, c.length % 2 = 0) →
    (cs.map (fun c => c.length / 2)).sum = cs.flatten.length / 2
  | [] => by intro _; simp
  | c :: cs => by
    intro h
    have hc : c.length % 2 = 0 := h c (List.mem_cons_self c cs)
    have hrec := sum_half_lengths cs (fun x hx => h x (List.mem_cons_of_mem c hx))
    have hdvd : (2 : Nat) ∣ c.length := Nat.dvd_of_mod_eq_zero hc
    have h2 : (c.length + cs.flatten.length) / 2 =
        c.length / 2 + cs.flatten.length / 2 := Nat.add_div_of_dvd_right hdvd
    simp only [List.map_cons, List.sum_cons, List.flatten_cons, List.length_append,
      hrec, h2]

end StubEngine

/-! ## Claim C9 -/

/-- C9: Feeding the same PCM byte sequence to a freshly constructed stub
engine under any two partitions into even-length chunks produces the same
concatenated sequence of Results. -/
theorem C9_chunk_partition_invariance (cs ds : List (List Nat))
    (hcs : ∀ c ∈ cs, c.length % 2 = 0) (hds : ∀ d ∈ ds, d.length % 2 = 0)
    (hjoin : cs.flatten = ds.flatten) :
    (StubEngine.feedAll ExpectedSampleRate NewStubEngine cs).2 =
      (StubEngine.feedAll ExpectedSampleRate NewStubEngine ds).2 := by
  have h1 := StubEngine.feedAll_even_eq cs NewStubEngine hcs (by decide)
  have h2 := StubEngine.feedAll_even_eq ds NewStubEngine hds (by decide)
  rw [h1, h2, StubEngine.sum_half_lengths cs hcs, StubEngine.sum_half_lengths ds hds,
    hjoin]

/-- Witness for C9: one 4-byte chunk versus two 2-byte chunks of the same
bytes. -/
theorem C9_witness :
    (StubEngine.feedAll ExpectedSampleRate NewStubEngine [[0, 1, 2, 3]]).2 =
      (StubEngine.feedAll ExpectedSampleRate NewStubEngine [[0, 1], [2, 3]]).2 :=
  C9_chunk_partition_invariance [[0, 1, 2, 3]] [[0, 1], [2, 3]]
    (by decide) (by decide) (by decide)

/-! ## Claim C10 -/

/-- C10: The stub's observable behaviour is fully determined by the chunk
lengths — equal length sequences give identical runs regardless of byte
content — every successful result carries the fixed confidence 0.42, and
`SetThreshold` is a no-op, so interleaved threshold updates never change
future output. -/
theorem C10_stub_length_determinism :
    (∀ (sr : Nat) (cs ds : List (List Nat)) (e : StubEngine),
      cs.map List.length = ds.map List.length →
      StubEngine.feedAll sr e cs = StubEngine.feedAll sr e ds) ∧
    (∀ (e : StubEngine) (pcm : List Nat) (sr : Nat) (rs : List Result),
      (StubEngine.ProcessChunk e pcm sr).2 = .ok rs →
      ∀ r ∈ rs, r.Confidence = StubConfidence) ∧
    (∀ (e : StubEngine) (t : ℚ), StubEngine.SetThreshold e t = e) :=
  ⟨fun sr cs ds e h => StubEngine.feedAll_length_only sr cs ds e h,
   fun e pcm sr rs h => StubEngine.ProcessChunk_confidence e pcm sr rs h,
   fun _ _ => rfl⟩

/-- Witness for C10: two byte-wise different but equal-length runs
coincide, an accepted chunk's results are checked, and a concrete
`SetThreshold` call is the identity. -/
theorem C10_witness :
    StubEngine.feedAll 16000 NewStubEngine [[0, 0]] =
      StubEngine.feedAll 16000 NewStubEngine [[7, 9]] ∧
    (∀ r ∈ ([] : List Result), r.Confidence = StubConfidence) ∧
    StubEngine.SetThreshold NewStubEngine (3 / 4) = NewStubEngine :=
  ⟨C10_stub_length_determinism.1 16000 [[0, 0]] [[7, 9]] NewStubEngine (by decide),
   C10_stub_length_determinism.2.1 NewStubEngine [0, 0] 16000 [] rfl,
   C10_stub_length_determinism.2.2 NewStubEngine (3 / 4)⟩

/-! ## Helper lemmas about the orchestrator -/

/-- One detector step emits at most one event. -/
lemma boundaryDetector.process_length_le_one (bd : boundaryDetector) (r : Result) :
    (bd.process r).2.length ≤ 1 := by
  simp only [boundaryDetector.process]
  split_ifs <;> simp

/-- Frame counting, timestamp placement and timestamp spacing of the
per-result emission loop: the frame counter advances once per result, every
event is stamped at `j * fd` for a frame slot `j` covered by this call, and
successive events of the call are separated by positive multiples of
`fd`. -/
lemma emitLoop_spec (fd : Nat) : ∀ (results : List Result) (bd : boundaryDetector)
    (fc : Nat),
    (emitLoop fd bd fc results).2.1 = fc + results.length ∧
    (∀ ev ∈ (emitLoop fd bd fc results).2.2,
      ∃ j, fc ≤ j ∧ j < fc + results.length ∧ ev.timestampMs = j * fd) ∧
    List.Chain' (fun a b => ∃ k, 0 < k ∧ b.timestampMs = a.timestampMs + k * fd)
      (emitLoop fd bd fc results).2.2
  | [], bd, fc => by simp [emitLoop]
  | r :: rs, bd, fc => by
    obtain ⟨hcount, hmem, hchain⟩ := emitLoop_spec fd rs (bd.process r).1 (fc + 1)
    refine ⟨?_, ?_, ?_⟩
    · simp only [emitLoop, hcount, List.length_cons]
      omega
    · intro ev hev
      simp only [emitLoop, List.mem_append, List.mem_map] at hev
      rcases hev with ⟨e, _, hev⟩ | hev
      · exact ⟨fc, le_rfl, by simp, by rw [← hev]⟩
      · obtain ⟨j, hj1, hj2, hj3⟩ := hmem ev hev
        exact ⟨j, by omega, by simp only [List.length_cons]; omega, hj3⟩
    · simp only [emitLoop]
      rcases hlen : (bd.process r).2 with _ | ⟨ev0, rest0⟩
      · simpa using hchain
      · have : rest0 = [] := by
          have := bd.process_length_le_one r
          rw [hlen] at this
          simpa using List.length_eq_zero.mp (by simpa using this)
        subst this
        simp only [List.map_cons, List.map_nil, List.singleton_append]
        refine List.chain'_cons'.mpr ⟨?_, hchain⟩
        intro y hy
        obtain ⟨j, hj1, _, hj3⟩ := hmem y (List.mem_of_mem_head? hy)
        refine ⟨j - fc, by omega, ?_⟩
        simp only [hj3]
        have hj : j = fc + (j - fc) := by omega
        rw [hj, Nat.add_mul]
        simp [Nat.add_mul]

/-- `initEngine` never reports a clean termination. -/
lemma initEngine_ne_ok {σ : Type} (M : EngineModel σ) (factory : Option σ)
    (s : StreamState σ) : (initEngine M factory s).2 ≠ some Outcome.ok := by
  by_cases h1 : s.engineReady
  · simp [initEngine, h1]
  · cases hf : factory with
    | none => simp [initEngine, h1, hf]
    | some e0 =>
      by_cases h2 : M.FrameDurationMs = 0 <;> simp [initEngine, h1, hf, h2]

/-- The successful outcomes of the format section: either the state is
untouched, or a fully validated format is cached. -/
lemma formatStage_ok_cases {σ : Type} (s s1 : StreamState σ)
    (r : DetectSpeechRequest) (h : formatStage s r = .ok s1) :
    s1 = s ∨ ∃ af, s1 = { s with cachedFormat := some af } ∧ r.format = some af ∧
      af.sampleRate = ExpectedSampleRate ∧ checkFormatFields af = none := by
  unfold formatStage at h
  by_cases hfk : s.formatKnown = false
  · rw [if_pos hfk] at h
    cases hf : r.format with
    | none => rw [hf] at h; left; exact (Except.ok.inj h).symm
    | some af =>
      rw [hf] at h
      simp only [] at h
      by_cases hsr : 0 < af.sampleRate
      · rw [if_pos hsr] at h
        cases hcf : checkFormatFields af with
        | some reason => rw [hcf] at h; exact absurd h (by simp)
        | none =>
          rw [hcf] at h
          by_cases hne : af.sampleRate ≠ ExpectedSampleRate
          · rw [if_pos hne] at h; exact absurd h (by simp)
          · rw [if_neg hne] at h
            push_neg at hne
            right
            exact ⟨af, (Except.ok.inj h).symm, rfl, hne, hcf⟩
      · rw [if_neg hsr] at h; left; exact (Except.ok.inj h).symm
  · rw [if_neg hfk] at h
    cases hf : r.format with
    | none => rw [hf] at h; left; exact (Except.ok.inj h).symm
    | some af =>
      rw [hf] at h
      simp only [] at h
      by_cases hmm : af.sampleRate ≠ 0 ∧ af.sampleRate ≠ s.sampleRate
      · rw [if_pos hmm] at h; exact absurd h (by simp)
      · rw [if_neg hmm] at h
        cases hcf : checkFormatFields af with
        | some reason => rw [hcf] at h; exact absurd h (by simp)
        | none => rw [hcf] at h; left; exact (Except.ok.inj h).symm

/-- The successful outcomes of the first-PCM format resolution: either the
format was already known, or the effective sample rate was validated to be
the expected one and recorded. -/
lemma firstPCMFormatStage_ok_cases {σ : Type} (s s2 : StreamState σ)
    (r : DetectSpeechRequest) (h : firstPCMFormatStage s r = .ok s2) :
    (s.formatKnown = true ∧ s2 = s) ∨
    (s.formatKnown = false ∧
      s2 = { s with sampleRate := ExpectedSampleRate, formatKnown := true }) := by
  unfold firstPCMFormatStage at h
  by_cases hfk : s.formatKnown
  · rw [if_pos hfk] at h
    exact .inl ⟨hfk, (Except.ok.inj h).symm⟩
  · rw [if_neg hfk] at h
    right
    refine ⟨by simpa using hfk, ?_⟩
    rcases hfc : reqFormatCheck s r with e | u
    · rw [hfc] at h
      exact absurd h (by simp)
    · rw [hfc] at h
      cases heff : s.cachedFormat.orElse (fun _ => r.format) with
      | none => rw [heff] at h; exact absurd h (by simp)
      | some af =>
        rw [heff] at h
        simp only [] at h
        by_cases hz : af.sampleRate = 0
        · rw [if_pos hz] at h; exact absurd h (by simp)
        · rw [if_neg hz] at h
          by_cases hne : af.sampleRate ≠ ExpectedSampleRate
          · rw [if_pos hne] at h; exact absurd h (by simp)
          · rw [if_neg hne] at h
            push_neg at hne
            rw [hne] at h
            exact (Except.ok.inj h).symm

/-- The four outcomes of `initEngine`: already initialised, nil factory,
invalid frame duration, or success. -/
lemma initEngine_cases {σ : Type} (M : EngineModel σ) (factory : Option σ)
    (s : StreamState σ) :
    (s.engineReady = true ∧ initEngine M factory s = (s, none)) ∨
    (s.engineReady = false ∧ factory = none ∧
      initEngine M factory s =
        ({ s with factoryCalls := s.factoryCalls + 1 }, some .internalError)) ∨
    (s.engineReady = false ∧ M.FrameDurationMs = 0 ∧ ∃ e1,
      initEngine M factory s =
        ({ s with factoryCalls := s.factoryCalls + 1, eng := some e1 },
          some .internalError)) ∨
    (s.engineReady = false ∧ M.FrameDurationMs ≠ 0 ∧ ∃ e1,
      initEngine M factory s =
        ({ s with
            factoryCalls := s.factoryCalls + 1
            eng := some e1
            engineReady := true
            frameDurationMs := M.FrameDurationMs
            bd := some (newBoundaryDetector s.streamCfg (M.FrameDurationMs : Int)) },
          none)) := by
  by_cases h1 : s.engineReady
  · exact .inl ⟨h1, by simp [initEngine, h1]⟩
  · cases hf : factory with
    | none =>
      exact .inr (.inl ⟨by simpa using h1, rfl, by simp [initEngine, h1]⟩)
    | some e0 =>
      by_cases h2 : M.FrameDurationMs = 0
      · refine .inr (.inr (.inl ⟨by simpa using h1, h2, M.SetThreshold e0 s.streamCfg.Threshold, ?_⟩))
        simp [initEngine, h1, h2]
      · refine .inr (.inr (.inr ⟨by simpa using h1, h2, M.SetThreshold e0 s.streamCfg.Threshold, ?_⟩))
        simp [initEngine, h1, h2]

/-- The spec of the PCM phase: it never reports a clean termination by
itself; the frame counter is monotone; the frame-duration and
boundary-detector invariants are preserved; the factory is only invoked on
an even, size-capped chunk; invalid-argument terminations leave the factory
count and readiness untouched; the cached format, format flag and sample
rate are untouched; and all events sit on distinct increasing frame slots
of the audio-time grid. -/
lemma pcmPhase_main {σ : Type} (M : EngineModel σ) (factory : Option σ)
    (t : StreamState σ) (r : DetectSpeechRequest) :
    (pcmPhase M factory t r).2.2 ≠ some Outcome.ok ∧
    t.frameCount ≤ (pcmPhase M factory t r).1.frameCount ∧
    ((t.engineReady = true → t.frameDurationMs = M.FrameDurationMs) →
      ((pcmPhase M factory t r).1.engineReady = true →
        (pcmPhase M factory t r).1.frameDurationMs = M.FrameDurationMs)) ∧
    ((t.bd.isSome → t.engineReady = true) →
      ((pcmPhase M factory t r).1.bd.isSome →
        (pcmPhase M factory t r).1.engineReady = true)) ∧
    ((pcmPhase M factory t r).1.factoryCalls ≠ t.factoryCalls →
      r.pcmData.length % 2 = 0 ∧ r.pcmData.length ≤ MaxPCMChunkBytes) ∧
    (∀ reason, (pcmPhase M factory t r).2.2 = some (.invalidArgument reason) →
      (pcmPhase M factory t r).1.factoryCalls = t.factoryCalls ∧
      (pcmPhase M factory t r).1.engineReady = t.engineReady) ∧
    (pcmPhase M factory t r).1.cachedFormat = t.cachedFormat ∧
    (pcmPhase M factory t r).1.formatKnown = t.formatKnown ∧
    (pcmPhase M factory t r).1.sampleRate = t.sampleRate ∧
    ((t.engineReady = true → t.frameDurationMs = M.FrameDurationMs) →
      (∀ ev ∈ (pcmPhase M factory t r).2.1, ∃ j,
        t.frameCount ≤ j ∧ j < (pcmPhase M factory t r).1.frameCount ∧
        ev.timestampMs = j * M.FrameDurationMs) ∧
      List.Chain' (fun a b => ∃ k, 0 < k ∧
        b.timestampMs = a.timestampMs + k * M.FrameDurationMs)
        (pcmPhase M factory t r).2.1) := by
  by_cases hodd : r.pcmData.length % 2 ≠ 0
  · have hpr : pcmPhase M factory t r =
        (t, [], some (.invalidArgument .oddPCMLength)) := by
      simp [pcmPhase, hodd]
    rw [hpr]
    exact ⟨by simp, le_rfl, fun hI => hI, fun hI => hI, by simp,
      fun reason2 _ => ⟨rfl, rfl⟩, rfl, rfl, rfl, fun _ => ⟨by simp, by simp⟩⟩
  · push_neg at hodd
    by_cases hbig : r.pcmData.length > MaxPCMChunkBytes
    · have hpr : pcmPhase M factory t r =
          (t, [], some (.invalidArgument .pcmTooLarge)) := by
        simp [pcmPhase, hodd, hbig]
      rw [hpr]
      exact ⟨by simp, le_rfl, fun hI => hI, fun hI => hI, by simp,
        fun reason2 _ => ⟨rfl, rfl⟩, rfl, rfl, rfl, fun _ => ⟨by simp, by simp⟩⟩
    · push_neg at hbig
      have hbig2 : ¬(MaxPCMChunkBytes < r.pcmData.length) := Nat.not_lt.mpr hbig
      by_cases heng2 : t.engineReady = false
      · rcases hac2 : applyStreamConfig r.configJson t.streamCfg with ce | cfg1
        · have hpr : pcmPhase M factory t r =
              (t, [], some (.invalidArgument (.streamConfig ce))) := by
            simp [pcmPhase, hodd, hbig2, heng2, hac2]
          rw [hpr]
          exact ⟨by simp, le_rfl, fun hI => hI, fun hI => hI, by simp,
            fun reason2 _ => ⟨rfl, rfl⟩, rfl, rfl, rfl, fun _ => ⟨by simp, by simp⟩⟩
        · rcases initEngine_cases M factory { t with streamCfg := cfg1 } with
            ⟨hready, _⟩ | ⟨_, hfac, hIE⟩ | ⟨_, hfd0, e1, hIE⟩ | ⟨_, hfdpos, e1, hIE⟩
          · rw [show ({ t with streamCfg := cfg1 } : StreamState σ).engineReady =
                t.engineReady from rfl, heng2] at hready
            exact absurd hready (by simp)
          · simp only [heng2] at hIE
            have hpr : pcmPhase M factory t r =
                ({ t with
                    streamCfg := cfg1
                    factoryCalls := t.factoryCalls + 1 },
                  [], some .internalError) := by
              simp [pcmPhase, hodd, hbig2, heng2, hac2, hIE]
            rw [hpr]
            refine ⟨by simp, le_rfl, ?_, ?_, fun _ => ⟨hodd, hbig⟩,
              fun reason2 h2 => by simp at h2, rfl, rfl, rfl,
              fun _ => ⟨by simp, by simp⟩⟩
            · intro hI h2
              have h2x : t.engineReady = true := h2
              rw [heng2] at h2x
              exact absurd h2x (by simp)
            · intro hI h2
              have h2x : t.bd.isSome = true := h2
              exact hI h2x
          · simp only [heng2] at hIE
            have hpr : pcmPhase M factory t r =
                ({ t with
                    streamCfg := cfg1
                    factoryCalls := t.factoryCalls + 1
                    eng := some e1 }, [], some .internalError) := by
              simp [pcmPhase, hodd, hbig2, heng2, hac2, hIE]
            rw [hpr]
            refine ⟨by simp, le_rfl, ?_, ?_, fun _ => ⟨hodd, hbig⟩,
              fun reason2 h2 => by simp at h2, rfl, rfl, rfl,
              fun _ => ⟨by simp, by simp⟩⟩
            · intro hI h2
              have h2x : t.engineReady = true := h2
              rw [heng2] at h2x
              exact absurd h2x (by simp)
            · intro hI h2
              have h2x : t.bd.isSome = true := h2
              exact hI h2x
          · set S : StreamState σ :=
              { t with
                  streamCfg := cfg1
                  factoryCalls := t.factoryCalls + 1
                  eng := some e1
                  engineReady := true
                  frameDurationMs := M.FrameDurationMs
                  bd := some (newBoundaryDetector cfg1 (M.FrameDurationMs : Int)) }
              with hSdef
            have hIE2 : initEngine M factory { t with streamCfg := cfg1 } = (S, none) := hIE
            simp only [heng2] at hIE2
            rcases hres : (M.ProcessChunk e1 r.pcmData t.sampleRate).2 with err | results
            · have hpr : pcmPhase M factory t r =
                  ({ S with eng := some (M.ProcessChunk e1 r.pcmData t.sampleRate).1 },
                    [], some .internalError) := by
                simp [pcmPhase, hodd, hbig2, heng2, hac2, hIE2, hres]
              rw [hpr]
              exact ⟨by simp, le_rfl, fun _ _ => rfl, fun _ _ => rfl,
                fun _ => ⟨hodd, hbig⟩, fun reason2 h2 => by simp at h2,
                rfl, rfl, rfl, fun _ => ⟨by simp, by simp⟩⟩
            · obtain ⟨hcnt, hmem, hchain⟩ := emitLoop_spec M.FrameDurationMs results
                (newBoundaryDetector cfg1 (M.FrameDurationMs : Int)) t.frameCount
              have hpr : pcmPhase M factory t r =
                  ({ S with
                      eng := some (M.ProcessChunk e1 r.pcmData t.sampleRate).1
                      bd := some (emitLoop M.FrameDurationMs
                        (newBoundaryDetector cfg1 (M.FrameDurationMs : Int))
                        t.frameCount results).1
                      frameCount := (emitLoop M.FrameDurationMs
                        (newBoundaryDetector cfg1 (M.FrameDurationMs : Int))
                        t.frameCount results).2.1 },
                    (emitLoop M.FrameDurationMs
                      (newBoundaryDetector cfg1 (M.FrameDurationMs : Int))
                      t.frameCount results).2.2, none) := by
                simp [pcmPhase, hodd, hbig2, heng2, hac2, hIE2, hres]
              rw [hpr]
              refine ⟨by simp, ?_, fun _ _ => rfl, fun _ _ => rfl,
                fun _ => ⟨hodd, hbig⟩, fun reason2 h2 => by simp at h2,
                rfl, rfl, rfl, fun _ => ⟨?_, hchain⟩⟩
              · simp only [hcnt]
                omega
              · intro ev hev
                obtain ⟨j, hj1, hj2, hj3⟩ := hmem ev hev
                exact ⟨j, hj1, by simpa [hcnt] using hj2, hj3⟩
      · have htR : t.engineReady = true := by
          revert heng2; cases t.engineReady <;> simp
        rcases hte : t.eng with _ | e
        · have hpr : pcmPhase M factory t r = (t, [], some .internalError) := by
            simp [pcmPhase, hodd, hbig2, heng2, hte]
          rw [hpr]
          exact ⟨by simp, le_rfl, fun hI => hI, fun hI => hI, by simp,
            fun reason2 h2 => by simp at h2, rfl, rfl, rfl,
            fun _ => ⟨by simp, by simp⟩⟩
        · rcases htbd : t.bd with _ | bd
          · have hpr : pcmPhase M factory t r = (t, [], some .internalError) := by
              simp [pcmPhase, hodd, hbig2, heng2, hte, htbd]
            rw [hpr]
            exact ⟨by simp, le_rfl, fun hI => hI, fun hI h2 => hI (htbd ▸ h2), by simp,
              fun reason2 h2 => by simp at h2, rfl, rfl, rfl,
              fun _ => ⟨by simp, by simp⟩⟩
          · rcases hres : (M.ProcessChunk e r.pcmData t.sampleRate).2 with err | results
            · have hpr : pcmPhase M factory t r =
                  ({ t with eng := some (M.ProcessChunk e r.pcmData t.sampleRate).1 },
                    [], some .internalError) := by
                simp [pcmPhase, hodd, hbig2, heng2, hte, htbd, hres]
              rw [hpr]
              refine ⟨by simp, le_rfl, ?_, ?_, by simp, fun reason2 h2 => by simp at h2,
                rfl, rfl, rfl, fun _ => ⟨by simp, by simp⟩⟩
              · intro hI h2
                exact hI htR
              · intro hI _
                exact htR
            · obtain ⟨hcnt, hmem, hchain⟩ := emitLoop_spec t.frameDurationMs results
                bd t.frameCount
              have hpr : pcmPhase M factory t r =
                  ({ t with
                      eng := some (M.ProcessChunk e r.pcmData t.sampleRate).1
                      bd := some (emitLoop t.frameDurationMs bd t.frameCount results).1
                      frameCount := (emitLoop t.frameDurationMs bd
                        t.frameCount results).2.1 },
                    (emitLoop t.frameDurationMs bd t.frameCount results).2.2,
                    none) := by
                simp [pcmPhase, hodd, hbig2, heng2, hte, htbd, hres]
              rw [hpr]
              refine ⟨by simp, ?_, ?_, ?_, by simp, fun reason2 h2 => by simp at h2,
                rfl, rfl, rfl, ?_⟩
              · simp only [hcnt]
                omega
              · intro hI h2
                exact hI htR
              · intro hI _
                exact htR
              · intro hI
                have hfdeq : t.frameDurationMs = M.FrameDurationMs := hI htR
                rw [← hfdeq]
                refine ⟨?_, hchain⟩
                intro ev hev
                obtain ⟨j, hj1, hj2, hj3⟩ := hmem ev hev
                exact ⟨j, hj1, by simpa [hcnt] using hj2, hj3⟩

/-- The master step lemma for one iteration of the receive loop, combining
the format stages with the PCM phase: the iteration never reports a clean
termination by itself; the frame counter is monotone; the frame-duration,
boundary-detector and sample-rate invariants are preserved; the factory is
only invoked on a non-empty, even, size-capped PCM chunk; invalid-argument
terminations leave the factory count and readiness untouched; cached-format
well-formedness is preserved; and all events sit on distinct increasing
frame slots of the audio-time grid. -/
lemma processReq_main {σ : Type} (M : EngineModel σ) (factory : Option σ)
    (s : StreamState σ) (r : DetectSpeechRequest) :
    (processReq M factory s r).2.2 ≠ some Outcome.ok ∧
    s.frameCount ≤ (processReq M factory s r).1.frameCount ∧
    ((s.engineReady = true → s.frameDurationMs = M.FrameDurationMs) →
      ((processReq M factory s r).1.engineReady = true →
        (processReq M factory s r).1.frameDurationMs = M.FrameDurationMs)) ∧
    ((s.bd.isSome → s.engineReady = true) →
      ((processReq M factory s r).1.bd.isSome →
        (processReq M factory s r).1.engineReady = true)) ∧
    ((processReq M factory s r).1.factoryCalls ≠ s.factoryCalls →
      r.pcmData ≠ [] ∧ r.pcmData.length % 2 = 0 ∧
      r.pcmData.length ≤ MaxPCMChunkBytes) ∧
    (∀ reason, (processReq M factory s r).2.2 = some (.invalidArgument reason) →
      (processReq M factory s r).1.factoryCalls = s.factoryCalls ∧
      (processReq M factory s r).1.engineReady = s.engineReady) ∧
    (CachedWF s → CachedWF (processReq M factory s r).1) ∧
    ((s.formatKnown = true → s.sampleRate = ExpectedSampleRate) →
      ((processReq M factory s r).1.formatKnown = true →
        (processReq M factory s r).1.sampleRate = ExpectedSampleRate)) ∧
    ((s.engineReady = true → s.frameDurationMs = M.FrameDurationMs) →
      (∀ ev ∈ (processReq M factory s r).2.1, ∃ j,
        s.frameCount ≤ j ∧ j < (processReq M factory s r).1.frameCount ∧
        ev.timestampMs = j * M.FrameDurationMs) ∧
      List.Chain' (fun a b => ∃ k, 0 < k ∧
        b.timestampMs = a.timestampMs + k * M.FrameDurationMs)
        (processReq M factory s r).2.1) := by
  rcases hfs : formatStage s r with reason | s1
  · have hpr : processReq M factory s r = (s, [], some (.invalidArgument reason)) := by
      simp [processReq, hfs]
    rw [hpr]
    exact ⟨by simp, le_rfl, fun hI => hI, fun hI => hI, by simp,
      fun reason2 _ => ⟨rfl, rfl⟩, fun hwf => hwf, fun hI => hI,
      fun _ => ⟨by simp, by simp⟩⟩
  · obtain ⟨hger1, hfca1, hfct1, hfdur1, hbd1, heng1, hfk1, hsrt1, hcfg1, hwf1⟩ :
        s1.engineReady = s.engineReady ∧ s1.factoryCalls = s.factoryCalls ∧
        s1.frameCount = s.frameCount ∧ s1.frameDurationMs = s.frameDurationMs ∧
        s1.bd = s.bd ∧ s1.eng = s.eng ∧ s1.formatKnown = s.formatKnown ∧
        s1.sampleRate = s.sampleRate ∧ s1.streamCfg = s.streamCfg ∧
        (CachedWF s → CachedWF s1) := by
      rcases formatStage_ok_cases s s1 r hfs with h1 | ⟨af, h1, _, hsr16, hcf⟩ <;>
        subst h1
      · exact ⟨rfl, rfl, rfl, rfl, rfl, rfl, rfl, rfl, rfl, fun hwf => hwf⟩
      · refine ⟨rfl, rfl, rfl, rfl, rfl, rfl, rfl, rfl, rfl, ?_⟩
        intro _ cf hcf2
        simp only [Option.some.injEq] at hcf2
        subst hcf2
        exact ⟨hsr16, hcf⟩
    by_cases hemp : r.pcmData.isEmpty
    · by_cases heng : s1.engineReady = false
      · rcases hac : applyStreamConfig r.configJson s1.streamCfg with ce | cfg1
        · have hpr : processReq M factory s r =
              (s1, [], some (.invalidArgument (.streamConfig ce))) := by
            simp [processReq, hfs, hemp, heng, hac]
          rw [hpr]
          refine ⟨by simp, le_of_eq hfct1.symm, ?_, ?_, ?_, ?_, hwf1, ?_, ?_⟩
          · intro hI h2
            rw [hfdur1]
            exact hI (hger1 ▸ h2)
          · intro hI h2
            rw [hger1]
            exact hI (hbd1 ▸ h2)
          · intro hne
            exact absurd hfca1 hne
          · intro reason2 _
            exact ⟨hfca1, hger1⟩
          · intro hI h2
            rw [hsrt1]
            exact hI (hfk1 ▸ h2)
          · intro _
            exact ⟨by simp, by simp⟩
        · have hpr : processReq M factory s r =
              ({ s1 with streamCfg := cfg1 }, [], none) := by
            simp [processReq, hfs, hemp, heng, hac]
          rw [hpr]
          refine ⟨by simp, le_of_eq hfct1.symm, ?_, ?_, ?_, ?_, ?_, ?_, ?_⟩
          · intro hI h2
            have h2x : s1.engineReady = true := h2
            show s1.frameDurationMs = M.FrameDurationMs
            rw [hfdur1]
            exact hI (hger1 ▸ h2x)
          · intro hI h2
            have h2x : s1.bd.isSome = true := h2
            show s1.engineReady = true
            rw [hger1]
            exact hI (hbd1 ▸ h2x)
          · intro hne
            exact absurd hfca1 hne
          · intro reason2 h2
            simp at h2
          · intro hwf
            exact hwf1 hwf
          · intro hI h2
            have h2x : s1.formatKnown = true := h2
            show s1.sampleRate = ExpectedSampleRate
            rw [hsrt1]
            exact hI (hfk1 ▸ h2x)
          · intro _
            exact ⟨by simp, by simp⟩
      · have hpr : processReq M factory s r = (s1, [], none) := by
          simp [processReq, hfs, hemp, heng]
        rw [hpr]
        refine ⟨by simp, le_of_eq hfct1.symm, ?_, ?_, ?_, ?_, hwf1, ?_, ?_⟩
        · intro hI h2
          rw [hfdur1]
          exact hI (hger1 ▸ h2)
        · intro hI h2
          rw [hger1]
          exact hI (hbd1 ▸ h2)
        · intro hne
          exact absurd hfca1 hne
        · intro reason2 h2
          simp at h2
        · intro hI h2
          rw [hsrt1]
          exact hI (hfk1 ▸ h2)
        · intro _
          exact ⟨by simp, by simp⟩
    · have hpcmne : r.pcmData ≠ [] := by
        intro hnil
        rw [hnil] at hemp
        simp at hemp
      rcases hfp : firstPCMFormatStage s1 r with reason | s2
      · have hpr : processReq M factory s r =
            (s1, [], some (.invalidArgument reason)) := by
          simp [processReq, hfs, hemp, hfp]
        rw [hpr]
        refine ⟨by simp, le_of_eq hfct1.symm, ?_, ?_, ?_, ?_, hwf1, ?_, ?_⟩
        · intro hI h2
          rw [hfdur1]
          exact hI (hger1 ▸ h2)
        · intro hI h2
          rw [hger1]
          exact hI (hbd1 ▸ h2)
        · intro hne
          exact absurd hfca1 hne
        · intro reason2 _
          exact ⟨hfca1, hger1⟩
        · intro hI h2
          rw [hsrt1]
          exact hI (hfk1 ▸ h2)
        · intro _
          exact ⟨by simp, by simp⟩
      · have hpr : processReq M factory s r = pcmPhase M factory s2 r := by
          simp [processReq, hfs, hemp, hfp]
        rw [hpr]
        obtain ⟨hger2, hfca2, hfct2, hfdur2, hbd2, hcash2, hwf2, hsrOK⟩ :
            s2.engineReady = s.engineReady ∧ s2.factoryCalls = s.factoryCalls ∧
            s2.frameCount = s.frameCount ∧ s2.frameDurationMs = s.frameDurationMs ∧
            s2.bd = s.bd ∧ s2.cachedFormat = s1.cachedFormat ∧
            (CachedWF s → CachedWF s2) ∧
            ((s.formatKnown = true → s.sampleRate = ExpectedSampleRate) →
              (s2.formatKnown = true → s2.sampleRate = ExpectedSampleRate)) := by
          rcases firstPCMFormatStage_ok_cases s1 s2 r hfp with ⟨hfkT, h2⟩ | ⟨hfkF, h2⟩ <;>
            subst h2
          · refine ⟨hger1, hfca1, hfct1, hfdur1, hbd1, rfl, hwf1, ?_⟩
            intro hI h2x
            rw [hsrt1]
            exact hI (hfk1 ▸ h2x)
          · refine ⟨hger1, hfca1, hfct1, hfdur1, hbd1, rfl, hwf1, ?_⟩
            intro _ _
            rfl
        obtain ⟨m1, m2, m3, m4, m5, m6, m7, m8a, m8b, m9⟩ :=
          pcmPhase_main M factory s2 r
        have hIbridge : (s.engineReady = true → s.frameDurationMs = M.FrameDurationMs) →
            (s2.engineReady = true → s2.frameDurationMs = M.FrameDurationMs) := by
          intro hI h2
          rw [hfdur2]
          exact hI (hger2 ▸ h2)
        refine ⟨m1, ?_, ?_, ?_, ?_, ?_, ?_, ?_, ?_⟩
        · rw [← hfct2]
          exact m2
        · intro hI
          exact m3 (hIbridge hI)
        · intro hI
          refine m4 ?_
          intro h2
          rw [hger2]
          exact hI (hbd2 ▸ h2)
        · intro hne
          rw [hfca2] at m5
          exact ⟨hpcmne, m5 hne⟩
        · intro reason2 h2
          obtain ⟨ha, hb⟩ := m6 reason2 h2
          rw [ha, hb, hfca2, hger2]
          exact ⟨rfl, rfl⟩
        · intro hwf
          have hw2 := hwf2 hwf
          intro cf hcf
          rw [m7] at hcf
          exact hw2 cf hcf
        · intro hI h2
          rw [m8b]
          rw [m8a] at h2
          exact hsrOK hI h2
        · intro hI
          obtain ⟨hmem, hchain⟩ := m9 (hIbridge hI)
          refine ⟨?_, hchain⟩
          intro ev hev
          obtain ⟨j, hj1, hj2, hj3⟩ := hmem ev hev
          rw [hfct2] at hj1
          exact ⟨j, hj1, hj2, hj3⟩

/-- Run-level facts about the whole `DetectSpeech` loop, by induction with
the per-step invariants: the frame counter is monotone; the factory is only
ever invoked after some non-empty, even, size-capped PCM message; and every
event of the stream — including the EOF flush — sits on a frame slot of the
audio-time grid at or after the starting frame, with successive events
separated by positive multiples of the frame duration. -/
lemma DetectSpeechLoop_main {σ : Type} (M : EngineModel σ) (factory : Option σ) :
    ∀ (reqs : List DetectSpeechRequest) (s : StreamState σ),
      (s.engineReady = true → s.frameDurationMs = M.FrameDurationMs) →
      (s.bd.isSome → s.engineReady = true) →
      (s.formatKnown = true → s.sampleRate = ExpectedSampleRate) →
      CachedWF s →
      s.frameCount ≤ (DetectSpeechLoop M factory s reqs).2.1.frameCount ∧
      ((DetectSpeechLoop M factory s reqs).2.1.factoryCalls ≠ s.factoryCalls →
        ∃ r ∈ reqs, r.pcmData ≠ [] ∧ r.pcmData.length % 2 = 0 ∧
          r.pcmData.length ≤ MaxPCMChunkBytes) ∧
      (∀ ev ∈ (DetectSpeechLoop M factory s reqs).1, ∃ j,
        s.frameCount ≤ j ∧ ev.timestampMs = j * M.FrameDurationMs) ∧
      List.Chain' (fun a b => ∃ k, 0 < k ∧
        b.timestampMs = a.timestampMs + k * M.FrameDurationMs)
        (DetectSpeechLoop M factory s reqs).1
  | [], s => by
    intro hI1 hI2 _ _
    refine ⟨le_rfl, fun hne => absurd rfl hne, ?_, ?_⟩
    · intro ev hev
      simp only [DetectSpeechLoop, eofFlush] at hev
      rcases hbd : s.bd with _ | bd
      · simp [hbd] at hev
      · by_cases hins : bd.inSpeech
        · simp only [hbd, hins, if_true, List.mem_singleton] at hev
          subst hev
          refine ⟨s.frameCount, le_rfl, ?_⟩
          have hfd : s.frameDurationMs = M.FrameDurationMs :=
            hI1 (hI2 (by rw [hbd]; rfl))
          simp [hfd]
        · simp [hbd, hins] at hev
    · simp only [DetectSpeechLoop, eofFlush]
      rcases hbd : s.bd with _ | bd
      · simp
      · by_cases hins : bd.inSpeech <;> simp [hins]
  | r :: rs, s => by
    intro hI1 hI2 hI3 hWF
    obtain ⟨p1, p2, p3, p4, p5, p6, p7, p8, p9⟩ := processReq_main M factory s r
    rcases hp : processReq M factory s r with ⟨s1, evs, o⟩
    rw [hp] at p1 p2 p3 p4 p5 p6 p7 p8 p9
    simp only at p1 p2 p3 p4 p5 p6 p7 p8 p9
    cases o with
    | some oo =>
      have hrun : DetectSpeechLoop M factory s (r :: rs) = (evs, s1, oo) := by
        simp [DetectSpeechLoop, hp]
      rw [hrun]
      obtain ⟨hmem, hchain⟩ := p9 hI1
      refine ⟨p2, ?_, ?_, hchain⟩
      · intro hne
        exact ⟨r, List.mem_cons_self r rs, p5 hne⟩
      · intro ev hev
        obtain ⟨j, hj1, _, hj3⟩ := hmem ev hev
        exact ⟨j, hj1, hj3⟩
    | none =>
      have hrun : DetectSpeechLoop M factory s (r :: rs) =
          (evs ++ (DetectSpeechLoop M factory s1 rs).1,
           (DetectSpeechLoop M factory s1 rs).2.1,
           (DetectSpeechLoop M factory s1 rs).2.2) := by
        simp [DetectSpeechLoop, hp]
      obtain ⟨q1, q2, q4, q5⟩ := DetectSpeechLoop_main M factory rs s1
        (p3 hI1) (p4 hI2) (p8 hI3) (p7 hWF)
      rw [hrun]
      obtain ⟨hmem, hchain⟩ := p9 hI1
      refine ⟨le_trans p2 q1, ?_, ?_, ?_⟩
      · intro hne
        simp only [] at hne
        by_cases hmid : s1.factoryCalls = s.factoryCalls
        · rw [← hmid] at hne
          obtain ⟨r2, hr2, hr2b⟩ := q2 hne
          exact ⟨r2, List.mem_cons_of_mem r hr2, hr2b⟩
        · exact ⟨r, List.mem_cons_self r rs, p5 hmid⟩
      · intro ev hev
        simp only [] at hev
        rcases List.mem_append.mp hev with hev | hev
        · obtain ⟨j, hj1, _, hj3⟩ := hmem ev hev
          exact ⟨j, hj1, hj3⟩
        · obtain ⟨j, hj1, hj3⟩ := q4 ev hev
          exact ⟨j, le_trans p2 hj1, hj3⟩
      · rw [List.chain'_append]
        refine ⟨hchain, q5, ?_⟩
        intro x hx y hy
        have hxm : x ∈ evs := List.mem_of_mem_getLast? hx
        have hym : y ∈ (DetectSpeechLoop M factory s1 rs).1 :=
          List.mem_of_mem_head? hy
        obtain ⟨jx, hjx1, hjx2, hjx3⟩ := hmem x hxm
        obtain ⟨jy, hjy1, hjy3⟩ := q4 y hym
        refine ⟨jy - jx, by omega, ?_⟩
        rw [hjx3, hjy3]
        have hjeq : jy = jx + (jy - jx) := by omega
        conv_lhs => rw [hjeq]
        rw [Nat.add_mul]

/-- `DetectSpeechLoop` differs from `DetectSpeechChunks` exactly by the EOF
flush, appended when the request list is exhausted without an error. -/
lemma DetectSpeechLoop_eq_chunks {σ : Type} (M : EngineModel σ)
    (factory : Option σ) :
    ∀ (reqs : List DetectSpeechRequest) (s : StreamState σ),
      (DetectSpeechLoop M factory s reqs).2 =
        (DetectSpeechChunks M factory s reqs).2 ∧
      ((DetectSpeechChunks M factory s reqs).2.2 = .ok →
        (DetectSpeechLoop M factory s reqs).1 =
          (DetectSpeechChunks M factory s reqs).1 ++
            eofFlush (DetectSpeechChunks M factory s reqs).2.1) ∧
      ((DetectSpeechChunks M factory s reqs).2.2 ≠ .ok →
        (DetectSpeechLoop M factory s reqs).1 =
          (DetectSpeechChunks M factory s reqs).1)
  | [], s => by
    refine ⟨rfl, ?_, ?_⟩
    · intro _
      simp [DetectSpeechLoop, DetectSpeechChunks]
    · intro h
      simp [DetectSpeechChunks] at h
  | r :: rs, s => by
    obtain ⟨p1, _⟩ := processReq_main M factory s r
    rcases hp : processReq M factory s r with ⟨s1, evs, o⟩
    rw [hp] at p1
    simp only at p1
    cases o with
    | some oo =>
      have hne : oo ≠ .ok := by
        intro hh
        exact p1 (by rw [hh])
      refine ⟨by simp [DetectSpeechLoop, DetectSpeechChunks, hp], ?_, ?_⟩
      · intro h
        simp only [DetectSpeechChunks, hp] at h
        exact absurd h hne
      · intro _
        simp [DetectSpeechLoop, DetectSpeechChunks, hp]
    | none =>
      obtain ⟨q1, q2, q3⟩ := DetectSpeechLoop_eq_chunks M factory rs s1
      refine ⟨by simp [DetectSpeechLoop, DetectSpeechChunks, hp, q1], ?_, ?_⟩
      · intro h
        simp only [DetectSpeechChunks, hp] at h ⊢
        simp only [DetectSpeechLoop, hp]
        rw [q2 h, List.append_assoc]
      · intro h
        simp only [DetectSpeechChunks, hp] at h ⊢
        simp only [DetectSpeechLoop, hp]
        rw [q3 h]

/-! ## Concrete evaluation of the Silero counterexample run -/

/-- Decoding a run of zero bytes yields a run of zero samples. -/
lemma pcmToFloat32_replicate_zero : ∀ n : Nat,
    pcmToFloat32 (List.replicate (2 * n) 0) = List.replicate n 0
  | 0 => by simp [pcmToFloat32]
  | n + 1 => by
    have h : 2 * (n + 1) = 2 * n + 1 + 1 := by omega
    rw [h, List.replicate_succ, List.replicate_succ, List.replicate_succ,
      pcmToFloat32, pcmToFloat32_replicate_zero n]
    norm_num [toInt16]

/-- With a sub-window buffer the Silero drain loop is a no-op. -/
lemma sileroDrainFuel_small {RNN : Type} (infer : RNN → List ℚ → ℚ × RNN)
    (fuel : Nat) (e : SileroEngine RNN) (h : e.pcmBuf.length < sileroWindowSize) :
    SileroEngine.drainFuel infer fuel e = (e, []) := by
  cases fuel with
  | zero => rfl
  | succ fuel =>
    have h2 : ¬ e.pcmBuf.length ≥ sileroWindowSize := Nat.not_le.mpr h
    simp [SileroEngine.drainFuel, h2]

/-- Closed form of the drain loop of the counting-inference engine on a
whole number of zero windows: one result per window, speech exactly on
the overall first window. -/
lemma c3_drain_zeros : ∀ (k fuel st : Nat), 512 * k ≤ fuel →
    SileroEngine.drainFuel c3Infer fuel ⟨List.replicate (512 * k) (0 : ℚ), st, 1 / 2⟩ =
      (⟨[], st + k, 1 / 2⟩,
       (List.range k).map (fun i =>
         ⟨decide ((if st + i = 0 then (1 : ℚ) else 0) ≥ 1 / 2),
          if st + i = 0 then (1 : ℚ) else 0⟩))
  | 0 => by
    intro fuel st _
    rw [sileroDrainFuel_small]
    · simp
    · simp [sileroWindowSize]
  | k + 1 => by
    intro fuel st hfuel
    cases fuel with
    | zero => omega
    | succ f =>
      have hge : (List.replicate (512 * (k + 1)) (0 : ℚ)).length ≥ sileroWindowSize := by
        rw [List.length_replicate]
        show 512 ≤ 512 * (k + 1)
        omega
      have harith : 512 * (k + 1) - 512 = 512 * k := by omega
      have hdrop : (List.replicate (512 * (k + 1)) (0 : ℚ)).drop sileroWindowSize =
          List.replicate (512 * k) 0 := by
        show (List.replicate (512 * (k + 1)) (0 : ℚ)).drop 512 = _
        rw [List.drop_replicate, harith]
      have hrec := c3_drain_zeros k f (st + 1) (by omega)
      have hfun : ∀ i : Nat, st + 1 + i = st + (i + 1) := by omega
      simp only [SileroEngine.drainFuel]
      rw [if_pos hge]
      simp only [c3Infer, hdrop, hrec, List.range_succ_eq_map, List.map_cons,
        List.map_map, Function.comp, Nat.succ_eq_add_one, Nat.add_zero, hfun]
      congr 1

/-- Symbolic reduction of `processReq` on a PCM-carrying request whose
format stages succeed: the iteration is the PCM phase. -/
lemma processReq_pcm_run {σ : Type} (M : EngineModel σ) (factory : Option σ)
    (s s1 s2 : StreamState σ) (r : DetectSpeechRequest)
    (hfs : formatStage s r = .ok s1)
    (hne : r.pcmData.isEmpty = false)
    (hfp : firstPCMFormatStage s1 r = .ok s2) :
    processReq M factory s r = pcmPhase M factory s2 r := by
  unfold processReq
  rw [hfs]
  simp only []
  rw [hne]
  simp only [Bool.false_eq_true, if_false]
  rw [hfp]

/-- Symbolic reduction of the PCM phase when every check passes: the
engine is (re)used, the results are fed to the emission loop. -/
lemma pcmPhase_ok_run {σ : Type} (M : EngineModel σ) (factory : Option σ)
    (s2 s3 : StreamState σ) (r : DetectSpeechRequest) (cfg1 : Config)
    (e e' : σ) (bd : boundaryDetector) (results : List Result)
    (heven : r.pcmData.length % 2 = 0)
    (hsize : ¬ r.pcmData.length > MaxPCMChunkBytes)
    (hready : s2.engineReady = false)
    (hcfg : applyStreamConfig r.configJson s2.streamCfg = .ok cfg1)
    (hinit : initEngine M factory { s2 with streamCfg := cfg1 } = (s3, none))
    (heng : s3.eng = some e) (hbd : s3.bd = some bd)
    (hPC : M.ProcessChunk e r.pcmData s3.sampleRate = (e', .ok results)) :
    pcmPhase M factory s2 r =
      ({ s3 with
          eng := some e'
          bd := some (emitLoop s3.frameDurationMs bd s3.frameCount results).1
          frameCount := (emitLoop s3.frameDurationMs bd s3.frameCount results).2.1 },
       (emitLoop s3.frameDurationMs bd s3.frameCount results).2.2, none) := by
  unfold pcmPhase
  rw [if_neg (by omega : ¬ r.pcmData.length % 2 ≠ 0)]
  rw [if_neg hsize]
  rw [if_pos hready, hcfg]
  simp only []
  rw [hinit]
  simp only []
  rw [heng, hbd]
  simp only []
  rw [hPC]

/-- The Silero `ProcessChunk` of the counterexample's 3072-byte request in
closed form: three zero windows, speech on the first window only. -/
lemma c3_ProcessChunk :
    SileroEngine.ProcessChunk c3Infer ⟨[], 0, 1 / 2⟩ (List.replicate 3072 0) 16000 =
      (⟨[], 3, 1 / 2⟩, .ok [⟨true, 1⟩, ⟨false, 0⟩, ⟨false, 0⟩]) := by
  have hlen : (List.replicate 3072 (0 : Nat)).length = 3072 := List.length_replicate 3072 0
  have hsamples : pcmToFloat32 (List.replicate 3072 0) = List.replicate 1536 (0 : ℚ) := by
    have h := pcmToFloat32_replicate_zero 1536
    norm_num at h
    exact h
  have hdr := c3_drain_zeros 3 1536 0 (by norm_num)
  norm_num at hdr
  have hev : ((List.range 3).map (fun i =>
      (⟨decide ((if i = 0 then (1 : ℚ) else 0) ≥ 1 / 2),
        if i = 0 then (1 : ℚ) else 0⟩ : Result))) =
      [⟨true, 1⟩, ⟨false, 0⟩, ⟨false, 0⟩] := by
    have h3 : List.range 3 = [0, 1, 2] := rfl
    rw [h3]
    simp only [List.map_cons, List.map_nil]
    norm_num [decide_eq_true_eq, decide_eq_false_iff_not]
  simp only [SileroEngine.ProcessChunk]
  rw [if_neg (by decide : ¬ (16000 ≠ ExpectedSampleRate))]
  rw [if_neg (show ¬ ((List.replicate 3072 (0 : Nat)).length % 2 ≠ 0) by rw [hlen]; decide)]
  simp only [hsamples, List.nil_append, SileroEngine.drain]
  rw [show (⟨List.replicate 1536 (0 : ℚ), 0, 1 / 2⟩ : SileroEngine Nat).pcmBuf.length = 1536
    from List.length_replicate 1536 0]
  rw [hdr, hev]

/-! ## Claim C3 -/

/-- C3 (amended): on a single stream the audio-time timestamps of the
emitted events are strictly increasing (the frame duration being
positive), and within any single `process_chunk` call the timestamps of
successive emitted events differ by a positive integer multiple of
`frame_duration_ms` — not always by exactly one frame, since silent
frames between two events advance the audio clock without emitting. -/
theorem C3_event_timestamps {σ : Type} (M : EngineModel σ) (factory : Option σ)
    (cfg : Config) (reqs : List DetectSpeechRequest)
    (hfd : 0 < M.FrameDurationMs) :
    List.Chain' (fun a b : StampedEvent => a.timestampMs < b.timestampMs)
      (DetectSpeechLoop M factory (initialState cfg) reqs).1 ∧
    (∀ (s : StreamState σ) (r : DetectSpeechRequest),
      (s.engineReady = true → s.frameDurationMs = M.FrameDurationMs) →
      List.Chain' (fun a b : StampedEvent => ∃ k, 0 < k ∧
        b.timestampMs = a.timestampMs + k * M.FrameDurationMs)
        (processReq M factory s r).2.1) := by
  constructor
  · have h := (DetectSpeechLoop_main M factory reqs (initialState cfg)
      (by intro h; simp [initialState] at h)
      (by intro h; simp [initialState] at h)
      (by intro h; simp [initialState] at h)
      (by intro cf h; simp [initialState] at h)).2.2.2
    refine h.imp ?_
    rintro a b ⟨k, hk, he⟩
    rw [he]
    have hpos : 0 < k * M.FrameDurationMs := Nat.mul_pos hk hfd
    omega
  · intro s r hI
    exact ((processReq_main M factory s r).2.2.2.2.2.2.2.2 hI).2

/-- Witness for C3 at the concrete stub stream `ceReq1; ceReq2`: strictly
increasing timestamps over the whole run and positive-multiple spacing
within every single call. -/
theorem C3_witness :
    0 < stubModel.FrameDurationMs ∧
    (List.Chain' (fun a b : StampedEvent => a.timestampMs < b.timestampMs)
      (DetectSpeechLoop stubModel (some NewStubEngine) (initialState ceCfg)
        [ceReq1, ceReq2]).1 ∧
     (∀ (s : StreamState StubEngine) (r : DetectSpeechRequest),
       (s.engineReady = true → s.frameDurationMs = stubModel.FrameDurationMs) →
       List.Chain' (fun a b : StampedEvent => ∃ k, 0 < k ∧
         b.timestampMs = a.timestampMs + k * stubModel.FrameDurationMs)
         (processReq stubModel (some NewStubEngine) s r).2.1)) :=
  ⟨by decide,
   C3_event_timestamps stubModel (some NewStubEngine) ceCfg [ceReq1, ceReq2]
     (by decide)⟩

/-- Counterexample to C3 as stated: one `process_chunk` call of the Silero
run (one speech window, then two silence windows, against a two-frame
silence threshold) emits a START at 0 ms and an END at 64 ms — successive
events of a single call 64 ms apart, not the 32 ms frame duration. -/
theorem C3_counterexample :
    ((processReq (sileroModel c3Infer) (some c3Engine) (initialState c3Cfg)
        c3Req).2.1.map (fun ev => (ev.type, ev.timestampMs)) =
      [(SpeechEventType.start, 0), (SpeechEventType.endOfSpeech, 64)]) ∧
    (sileroModel c3Infer).FrameDurationMs = 32 ∧ (64 - 0 : Nat) ≠ 32 := by
  refine ⟨?_, rfl, by decide⟩
  have hie : c3Req.pcmData.isEmpty = false := by
    show (List.replicate 3072 (0 : Nat)).isEmpty = false
    rw [List.isEmpty_replicate]
    rfl
  have hlen : c3Req.pcmData.length = 3072 := by
    show (List.replicate 3072 (0 : Nat)).length = 3072
    exact List.length_replicate 3072 0
  have hrun := processReq_pcm_run (sileroModel c3Infer) (some c3Engine)
    (initialState c3Cfg)
    ⟨c3Cfg, none, false, false, none, some ⟨16000, "", 0, 0⟩, 0, 0, 0, 0⟩
    ⟨c3Cfg, none, false, true, none, some ⟨16000, "", 0, 0⟩, 16000, 0, 0, 0⟩
    c3Req rfl hie rfl
  have heven : c3Req.pcmData.length % 2 = 0 := by rw [hlen]
  have hsize : ¬ c3Req.pcmData.length > MaxPCMChunkBytes := by rw [hlen]; decide
  have hready : (⟨c3Cfg, none, false, true, none, some ⟨16000, "", 0, 0⟩, 16000, 0, 0, 0⟩ :
      StreamState (SileroEngine Nat)).engineReady = false := rfl
  have hcfg : applyStreamConfig c3Req.configJson
      (⟨c3Cfg, none, false, true, none, some ⟨16000, "", 0, 0⟩, 16000, 0, 0, 0⟩ :
        StreamState (SileroEngine Nat)).streamCfg = .ok c3Cfg := rfl
  have hinit : initEngine (sileroModel c3Infer) (some c3Engine)
      { (⟨c3Cfg, none, false, true, none, some ⟨16000, "", 0, 0⟩, 16000, 0, 0, 0⟩ :
          StreamState (SileroEngine Nat)) with streamCfg := c3Cfg } =
      (⟨c3Cfg, some ⟨[], 0, 1 / 2⟩, true, true, some (newBoundaryDetector c3Cfg 32), some ⟨16000, "", 0, 0⟩, 16000, 32, 0, 1⟩, none) := rfl
  have heng : (⟨c3Cfg, some ⟨[], 0, 1 / 2⟩, true, true, some (newBoundaryDetector c3Cfg 32), some ⟨16000, "", 0, 0⟩, 16000, 32, 0, 1⟩ :
      StreamState (SileroEngine Nat)).eng = some ⟨[], 0, 1 / 2⟩ := rfl
  have hbd : (⟨c3Cfg, some ⟨[], 0, 1 / 2⟩, true, true, some (newBoundaryDetector c3Cfg 32), some ⟨16000, "", 0, 0⟩, 16000, 32, 0, 1⟩ :
      StreamState (SileroEngine Nat)).bd = some (newBoundaryDetector c3Cfg 32) := rfl
  have hPC : (sileroModel c3Infer).ProcessChunk ⟨[], 0, 1 / 2⟩ c3Req.pcmData
      (⟨c3Cfg, some ⟨[], 0, 1 / 2⟩, true, true, some (newBoundaryDetector c3Cfg 32), some ⟨16000, "", 0, 0⟩, 16000, 32, 0, 1⟩ :
        StreamState (SileroEngine Nat)).sampleRate =
      (⟨[], 3, 1 / 2⟩, .ok [⟨true, 1⟩, ⟨false, 0⟩, ⟨false, 0⟩]) := by
    simp only [sileroModel]
    show SileroEngine.ProcessChunk c3Infer ⟨[], 0, 1 / 2⟩ (List.replicate 3072 0) 16000 =
      (⟨[], 3, 1 / 2⟩, .ok [⟨true, 1⟩, ⟨false, 0⟩, ⟨false, 0⟩])
    exact c3_ProcessChunk
  have hphase := pcmPhase_ok_run (sileroModel c3Infer) (some c3Engine)
    ⟨c3Cfg, none, false, true, none, some ⟨16000, "", 0, 0⟩, 16000, 0, 0, 0⟩
    ⟨c3Cfg, some ⟨[], 0, 1 / 2⟩, true, true, some (newBoundaryDetector c3Cfg 32), some ⟨16000, "", 0, 0⟩, 16000, 32, 0, 1⟩
    c3Req c3Cfg ⟨[], 0, 1 / 2⟩ ⟨[], 3, 1 / 2⟩ (newBoundaryDetector c3Cfg 32)
    [⟨true, 1⟩, ⟨false, 0⟩, ⟨false, 0⟩]
    heven hsize hready hcfg hinit heng hbd hPC
  rw [hrun, hphase]
  decide

/-! ## Claim C5 -/

/-- A format with a bad non-zero field fails the field checks. -/
lemma checkFormatFields_of_bad {af : AudioFormat} (h : badFormatField af) :
    ∃ rr, checkFormatFields af = some rr := by
  unfold checkFormatFields
  by_cases h1 : af.encoding ≠ "" ∧ af.encoding ≠ "pcm_s16le"
  · exact ⟨_, by rw [if_pos h1]⟩
  · by_cases h2 : af.channels ≠ 0 ∧ af.channels ≠ 1
    · exact ⟨_, by rw [if_neg h1, if_pos h2]⟩
    · by_cases h3 : af.bitDepth ≠ 0 ∧ af.bitDepth ≠ 16
      · exact ⟨_, by rw [if_neg h1, if_neg h2, if_pos h3]⟩
      · rcases h with h | h | h
        · exact absurd h h1
        · exact absurd h h2
        · exact absurd h h3

/-- A request format that is bad or conflicts with the cached format fails
the first-PCM request-format check. -/
lemma reqFormatCheck_error {σ : Type} (s : StreamState σ) (r : DetectSpeechRequest)
    (h : (∃ af, r.format = some af ∧ badFormatField af) ∨
         (∃ cf af, s.cachedFormat = some cf ∧ r.format = some af ∧
           af.sampleRate ≠ 0 ∧ af.sampleRate ≠ cf.sampleRate)) :
    ∃ e, reqFormatCheck s r = .error e := by
  rcases h with ⟨af, hraf, hbad⟩ | ⟨cf, af, hcf, hraf, hz, hnecf⟩
  · obtain ⟨rr, hrr⟩ := checkFormatFields_of_bad hbad
    cases hcf2 : s.cachedFormat with
    | some cf =>
      by_cases hmm : af.sampleRate ≠ 0 ∧ af.sampleRate ≠ cf.sampleRate
      · exact ⟨.sampleRateMismatchCache, by simp [reqFormatCheck, hraf, hcf2, hmm]⟩
      · exact ⟨rr, by simp [reqFormatCheck, hraf, hcf2, hmm, hrr]⟩
    | none => exact ⟨rr, by simp [reqFormatCheck, hraf, hcf2, hrr]⟩
  · exact ⟨.sampleRateMismatchCache, by simp [reqFormatCheck, hraf, hcf, hz, hnecf]⟩

/-- When the format is not yet known, a failing request-format check or a
missing/zero/unsupported effective sample rate makes the first-PCM format
resolution fail. -/
lemma firstPCMFormatStage_error {σ : Type} (s : StreamState σ)
    (r : DetectSpeechRequest) (hfk : s.formatKnown = false)
    (h : (∃ e, reqFormatCheck s r = .error e) ∨
         (reqFormatCheck s r = .ok () ∧
          (s.cachedFormat.orElse (fun _ => r.format) = none ∨
           ∃ af, s.cachedFormat.orElse (fun _ => r.format) = some af ∧
             af.sampleRate ≠ ExpectedSampleRate))) :
    ∃ e, firstPCMFormatStage s r = .error e := by
  rcases h with ⟨e, he⟩ | ⟨hok, heff⟩
  · exact ⟨e, by simp [firstPCMFormatStage, hfk, he]⟩
  · rcases heff with hnone | ⟨af, hsome, hne16⟩
    · exact ⟨.formatRequired, by simp [firstPCMFormatStage, hfk, hok, hnone]⟩
    · by_cases hz : af.sampleRate = 0
      · exact ⟨.missingSampleRate,
          by simp [firstPCMFormatStage, hfk, hok, hsome, hz]⟩
      · exact ⟨.unsupportedSampleRate,
          by simp [firstPCMFormatStage, hfk, hok, hsome, hz, hne16]⟩

/-- At a pre-format, pre-engine state with a well-formed cache, a non-empty
PCM message failing any of the first-PCM validations terminates the stream
with an invalid-argument error, leaving the factory count untouched and
the engine unconstructed. -/
lemma firstPCM_invalid_rejected {σ : Type} (M : EngineModel σ) (factory : Option σ)
    (s : StreamState σ) (r : DetectSpeechRequest)
    (hfk : s.formatKnown = false) (hger : s.engineReady = false)
    (hwf : CachedWF s) (hne : r.pcmData ≠ []) (hinv : FirstPCMInvalid s r) :
    (∃ reason, (processReq M factory s r).2.2 =
      some (Outcome.invalidArgument reason)) ∧
    (processReq M factory s r).1.factoryCalls = s.factoryCalls ∧
    (processReq M factory s r).1.engineReady = false := by
  have hemp : r.pcmData.isEmpty = false := by simpa using hne
  rcases hfs : formatStage s r with reason | s1
  · have hpr : processReq M factory s r = (s, [], some (.invalidArgument reason)) := by
      simp [processReq, hfs]
    rw [hpr]
    exact ⟨⟨reason, rfl⟩, rfl, hger⟩
  · rcases hfp : firstPCMFormatStage s1 r with reason2 | s2
    · have hpr : processReq M factory s r =
          (s1, [], some (.invalidArgument reason2)) := by
        simp [processReq, hfs, hemp, hfp]
      rw [hpr]
      rcases formatStage_ok_cases s s1 r hfs with hs1 | ⟨af, hs1, _, _, _⟩ <;>
        rw [hs1] <;> exact ⟨⟨reason2, rfl⟩, rfl, hger⟩
    · have hpr : processReq M factory s r = pcmPhase M factory s2 r :=
        processReq_pcm_run M factory s s1 s2 r hfs hemp hfp
      have hkeep : s2.factoryCalls = s.factoryCalls ∧ s2.engineReady = false := by
        rcases formatStage_ok_cases s s1 r hfs with hs1 | ⟨af, hs1, _, _, _⟩ <;>
          rcases firstPCMFormatStage_ok_cases s1 s2 r hfp with ⟨_, hs2⟩ | ⟨_, hs2⟩ <;>
            rw [hs2, hs1] <;> exact ⟨rfl, hger⟩
      by_cases hodd : r.pcmData.length % 2 = 0
      · by_cases hbig : r.pcmData.length > MaxPCMChunkBytes
        · have hph : pcmPhase M factory s2 r =
              (s2, [], some (.invalidArgument .pcmTooLarge)) := by
            simp [pcmPhase, hodd, hbig]
          rw [hpr, hph]
          exact ⟨⟨.pcmTooLarge, rfl⟩, hkeep.1, hkeep.2⟩
        · exfalso
          rcases hinv with h1 | h2 | h3 | h4 | h5 | h6
          · omega
          · exact hbig h2
          · have hcn : s.cachedFormat = none ∧ r.format = none := by
              cases hc : s.cachedFormat <;> cases hr : r.format <;>
                simp [hc, hr, Option.orElse] at h3 ⊢
            rcases formatStage_ok_cases s s1 r hfs with hs1 | ⟨af, hs1, hraf, _, _⟩
            · rw [hs1] at hfp
              have hq : reqFormatCheck s r = .ok () := by
                simp [reqFormatCheck, hcn.2]
              obtain ⟨e, he⟩ := firstPCMFormatStage_error s r hfk
                (Or.inr ⟨hq, Or.inl h3⟩)
              rw [he] at hfp
              cases hfp
            · rw [hcn.2] at hraf
              cases hraf
          · obtain ⟨af2, heq, hne16⟩ := h4
            cases hc : s.cachedFormat with
            | some cf =>
              have hcfeq : af2 = cf := by
                rw [hc] at heq
                simp [Option.orElse] at heq
                exact heq.symm
              exact hne16 (by rw [hcfeq, (hwf cf hc).1])
            | none =>
              have hreq : r.format = some af2 := by
                rw [hc] at heq
                simpa [Option.orElse] using heq
              rcases formatStage_ok_cases s s1 r hfs with hs1 | ⟨af, hs1, hraf, hsr16, _⟩
              · rw [hs1] at hfp
                rcases hq : reqFormatCheck s r with e | u
                · obtain ⟨e2, he⟩ := firstPCMFormatStage_error s r hfk (Or.inl ⟨e, hq⟩)
                  rw [he] at hfp
                  cases hfp
                · cases u
                  obtain ⟨e2, he⟩ := firstPCMFormatStage_error s r hfk
                    (Or.inr ⟨hq, Or.inr ⟨af2, heq, hne16⟩⟩)
                  rw [he] at hfp
                  cases hfp
              · rw [hraf] at hreq
                injection hreq with haf
                exact hne16 (haf ▸ hsr16)
          · obtain ⟨af3, hraf3, hbad3⟩ := h5
            rcases formatStage_ok_cases s s1 r hfs with hs1 | ⟨af, hs1, hraf, _, hchk⟩
            · rw [hs1] at hfp
              obtain ⟨e, hq⟩ := reqFormatCheck_error s r (Or.inl ⟨af3, hraf3, hbad3⟩)
              obtain ⟨e2, he⟩ := firstPCMFormatStage_error s r hfk (Or.inl ⟨e, hq⟩)
              rw [he] at hfp
              cases hfp
            · rw [hraf] at hraf3
              injection hraf3 with haf
              obtain ⟨rr, hrr⟩ := checkFormatFields_of_bad hbad3
              rw [← haf, hchk] at hrr
              cases hrr
          · obtain ⟨cf, af4, hcf4, hraf4, hz4, hne4⟩ := h6
            rcases formatStage_ok_cases s s1 r hfs with hs1 | ⟨af, hs1, hraf, hsr16, _⟩
            · rw [hs1] at hfp
              obtain ⟨e, hq⟩ := reqFormatCheck_error s r
                (Or.inr ⟨cf, af4, hcf4, hraf4, hz4, hne4⟩)
              obtain ⟨e2, he⟩ := firstPCMFormatStage_error s r hfk (Or.inl ⟨e, hq⟩)
              rw [he] at hfp
              cases hfp
            · rw [hraf] at hraf4
              injection hraf4 with haf
              exact hne4 (by rw [← haf, hsr16, (hwf cf hcf4).1])
      · have hodd2 : r.pcmData.length % 2 ≠ 0 := hodd
        have hph : pcmPhase M factory s2 r =
            (s2, [], some (.invalidArgument .oddPCMLength)) := by
          simp [pcmPhase, hodd2]
        rw [hpr, hph]
        exact ⟨⟨.oddPCMLength, rfl⟩, hkeep.1, hkeep.2⟩

/-- C5: the engine factory is never invoked before a fully validated first
PCM message.  `MAX_PCM_CHUNK_BYTES` is `2^20`; over any whole stream from
the initial state, a factory invocation implies some request carried
non-empty, even-length, size-capped PCM; a factory count change in one
iteration requires such a request; and at a pre-format, pre-engine state
(with the cache well-formed, as the code maintains), a non-empty first PCM
failing any of the spec's validations — missing effective format,
zero/unsupported effective sample rate, bad format field, cache conflict,
odd length, oversize — terminates the stream with `InvalidArgument` and
never constructs the engine. -/
theorem C5_no_engine_before_validation {σ : Type} (M : EngineModel σ)
    (factory : Option σ) (cfg : Config) :
    MaxPCMChunkBytes = 2 ^ 20 ∧
    (∀ reqs : List DetectSpeechRequest,
      (DetectSpeechLoop M factory (initialState cfg) reqs).2.1.factoryCalls ≠ 0 →
      ∃ r ∈ reqs, r.pcmData ≠ [] ∧ r.pcmData.length % 2 = 0 ∧
        r.pcmData.length ≤ MaxPCMChunkBytes) ∧
    (∀ (s : StreamState σ) (r : DetectSpeechRequest),
      (processReq M factory s r).1.factoryCalls ≠ s.factoryCalls →
      r.pcmData ≠ [] ∧ r.pcmData.length % 2 = 0 ∧
        r.pcmData.length ≤ MaxPCMChunkBytes) ∧
    (∀ (s : StreamState σ) (r : DetectSpeechRequest),
      s.formatKnown = false → s.engineReady = false → CachedWF s →
      r.pcmData ≠ [] → FirstPCMInvalid s r →
      (∃ reason, (processReq M factory s r).2.2 =
        some (Outcome.invalidArgument reason)) ∧
      (processReq M factory s r).1.factoryCalls = s.factoryCalls ∧
      (processReq M factory s r).1.engineReady = false) := by
  refine ⟨by decide, ?_, ?_, firstPCM_invalid_rejected M factory⟩
  · intro reqs hne
    exact (DetectSpeechLoop_main M factory reqs (initialState cfg)
      (by intro h; simp [initialState] at h)
      (by intro h; simp [initialState] at h)
      (by intro h; simp [initialState] at h)
      (by intro cf h; simp [initialState] at h)).2.1 hne
  · intro s r hne
    exact (processReq_main M factory s r).2.2.2.2.1 hne

/-- Witness for C5 at a concrete input: a first PCM of a single (odd) byte
is rejected with `InvalidArgument` and the stub factory is never called. -/
theorem C5_witness :
    ((initialState (σ := StubEngine) ceCfg).formatKnown = false ∧
     (initialState (σ := StubEngine) ceCfg).engineReady = false ∧
     c5Req.pcmData ≠ [] ∧ FirstPCMInvalid (initialState (σ := StubEngine) ceCfg) c5Req) ∧
    (∃ reason, (processReq stubModel (some NewStubEngine) (initialState ceCfg)
        c5Req).2.2 = some (Outcome.invalidArgument reason)) ∧
    (processReq stubModel (some NewStubEngine) (initialState ceCfg)
        c5Req).1.factoryCalls = (initialState (σ := StubEngine) ceCfg).factoryCalls ∧
    (processReq stubModel (some NewStubEngine) (initialState ceCfg)
        c5Req).1.engineReady = false :=
  ⟨⟨rfl, rfl, by decide, Or.inl (by decide)⟩,
   (C5_no_engine_before_validation stubModel (some NewStubEngine) ceCfg).2.2.2
     (initialState ceCfg) c5Req rfl rfl
     (by intro cf h; simp [initialState] at h) (by decide) (Or.inl (by decide))⟩

/-! ## Claim C7 -/

/-- C7: a stream's `config_json` is rejected exactly when it is malformed
JSON, carries `speech_pad_ms` (the error message naming
`min_speech_duration_ms` and `min_silence_duration_ms` as replacements),
or yields values outside `threshold ∈ [0,1]`,
`min_speech_ms ∈ (0,60000]`, `min_silence_ms ∈ (0,60000]`; a blank
`config_json` is accepted unchanged (unrecognised keys never reach the
decoded form, per the `ConfigJson` model), and on a pre-engine request the
rejection surfaces as the stream's `InvalidArgument` termination. -/
theorem C7_stream_config_rejection :
    (∀ cfg : Config, applyStreamConfig .absent cfg = .ok cfg) ∧
    (∀ cfg : Config, applyStreamConfig .malformed cfg = .error .invalidJson) ∧
    (∀ (cfg : Config) (th : Option ℚ) (sp si : Option Int) (pad : Int),
      applyStreamConfig (.parsed th sp si (some pad)) cfg =
        .error .speechPadUnsupported) ∧
    (∃ pre mid post : String, speechPadErrMsg =
      pre ++ "min_speech_duration_ms" ++ mid ++ "min_silence_duration_ms" ++ post) ∧
    (∀ (cfg : Config) (th : Option ℚ) (sp si : Option Int),
      (∃ e, applyStreamConfig (.parsed th sp si none) cfg = .error e) ↔
      ¬ (0 ≤ th.getD cfg.Threshold ∧ th.getD cfg.Threshold ≤ 1 ∧
         0 < sp.getD cfg.MinSpeechDurationMs ∧
         sp.getD cfg.MinSpeechDurationMs ≤ 60000 ∧
         0 < si.getD cfg.MinSilenceDurationMs ∧
         si.getD cfg.MinSilenceDurationMs ≤ 60000)) ∧
    (∀ (σ : Type) (M : EngineModel σ) (factory : Option σ) (s : StreamState σ)
       (cj : ConfigJson) (ce : ConfigError), s.engineReady = false →
      (processReq M factory s ⟨[], none, cj⟩ =
        (s, [], some (.invalidArgument (.streamConfig ce))) ↔
       applyStreamConfig cj s.streamCfg = .error ce)) := by
  refine ⟨fun cfg => rfl, fun cfg => rfl, fun cfg th sp si pad => rfl,
    ⟨"speech_pad_ms is not supported; use ", " and ", " instead", rfl⟩, ?_, ?_⟩
  · intro cfg th sp si
    by_cases hP : (0 ≤ th.getD cfg.Threshold ∧ th.getD cfg.Threshold ≤ 1 ∧
        0 < sp.getD cfg.MinSpeechDurationMs ∧
        sp.getD cfg.MinSpeechDurationMs ≤ 60000 ∧
        0 < si.getD cfg.MinSilenceDurationMs ∧
        si.getD cfg.MinSilenceDurationMs ≤ 60000)
    · simp [applyStreamConfig, Config.ValidateVADParams, hP]
    · simp [applyStreamConfig, Config.ValidateVADParams, hP]
  · intro σ M factory s cj ce hready
    have hfs : formatStage s ⟨[], none, cj⟩ = .ok s := by
      unfold formatStage
      by_cases hfk : s.formatKnown = false
      · rw [if_pos hfk]
      · rw [if_neg hfk]
    constructor
    · intro h
      rcases hac : applyStreamConfig cj s.streamCfg with ce2 | cfg1
      · have hpr : processReq M factory s ⟨[], none, cj⟩ =
            (s, [], some (.invalidArgument (.streamConfig ce2))) := by
          simp [processReq, hfs, hready, hac]
        rw [hpr] at h
        have hce : ce2 = ce := by
          have h2 := congrArg (fun t => t.2.2) h
          simpa using h2
        rw [hce]
      · have hpr : processReq M factory s ⟨[], none, cj⟩ =
            ({ s with streamCfg := cfg1 }, [], none) := by
          simp [processReq, hfs, hready, hac]
        rw [hpr] at h
        have h2 := congrArg (fun t => t.2.2) h
        simp at h2
    · intro h
      simp [processReq, hfs, hready, h]

/-- Witness for C7 at a concrete input: malformed per-stream JSON on a
pre-engine request terminates the stream with the stream-config
`InvalidArgument`. -/
theorem C7_witness :
    (initialState (σ := StubEngine) ceCfg).engineReady = false ∧
    (processReq stubModel (some NewStubEngine) (initialState ceCfg)
        ⟨[], none, .malformed⟩ =
      (initialState ceCfg, [],
        some (.invalidArgument (.streamConfig .invalidJson))) ↔
     applyStreamConfig .malformed
        (initialState (σ := StubEngine) ceCfg).streamCfg = .error .invalidJson) :=
  ⟨rfl,
   C7_stream_config_rejection.2.2.2.2.2 StubEngine stubModel (some NewStubEngine)
     (initialState ceCfg) .malformed .invalidJson rfl⟩

/-! ## Claim C8 -/

/-- C8: at the client's EOF the stream closes successfully, emitting — on
top of the per-chunk events — exactly the EOF flush: one END event
carrying the last observed confidence and the next audio-time slot
`frame_count * frame_duration_ms` when the boundary detector exists and is
inside speech, and nothing when it is out of speech or was never
created. -/
theorem C8_eof_flush {σ : Type} (M : EngineModel σ) (factory : Option σ)
    (s : StreamState σ) (reqs : List DetectSpeechRequest) :
    ((DetectSpeechChunks M factory s reqs).2.2 = .ok →
      (DetectSpeechLoop M factory s reqs).1 =
        (DetectSpeechChunks M factory s reqs).1 ++
          eofFlush (DetectSpeechChunks M factory s reqs).2.1 ∧
      (DetectSpeechLoop M factory s reqs).2.2 = .ok) ∧
    ((DetectSpeechChunks M factory s reqs).2.2 ≠ .ok →
      (DetectSpeechLoop M factory s reqs).1 =
        (DetectSpeechChunks M factory s reqs).1) ∧
    (∀ t : StreamState σ,
      (∀ bd, t.bd = some bd → bd.inSpeech = true →
        eofFlush t = [⟨.endOfSpeech, bd.lastConfidence,
          t.frameCount * t.frameDurationMs⟩]) ∧
      (∀ bd, t.bd = some bd → bd.inSpeech = false → eofFlush t = []) ∧
      (t.bd = none → eofFlush t = [])) := by
  obtain ⟨q1, q2, q3⟩ := DetectSpeechLoop_eq_chunks M factory reqs s
  refine ⟨?_, q3, ?_⟩
  · intro hok
    exact ⟨q2 hok, (congrArg Prod.snd q1).trans hok⟩
  · intro t
    refine ⟨?_, ?_, ?_⟩
    · intro bd hbd hins
      simp [eofFlush, hbd, hins]
    · intro bd hbd hins
      simp [eofFlush, hbd, hins]
    · intro hbd
      simp [eofFlush, hbd]

/-- Witness for C8 at a concrete input: from a mid-speech state, EOF alone
closes the stream cleanly and flushes exactly one END event at the next
audio-time slot with the last confidence. -/
theorem C8_witness :
    (DetectSpeechChunks stubModel (some NewStubEngine) c8State []).2.2 = .ok ∧
    (DetectSpeechLoop stubModel (some NewStubEngine) c8State []).1 =
      (DetectSpeechChunks stubModel (some NewStubEngine) c8State []).1 ++
        eofFlush (DetectSpeechChunks stubModel (some NewStubEngine) c8State []).2.1 ∧
    (DetectSpeechLoop stubModel (some NewStubEngine) c8State []).2.2 = .ok ∧
    eofFlush c8State = [⟨.endOfSpeech, 7 / 10, 60⟩] :=
  ⟨rfl,
   ((C8_eof_flush stubModel (some NewStubEngine) c8State []).1 rfl).1,
   ((C8_eof_flush stubModel (some NewStubEngine) c8State []).1 rfl).2,
   ((C8_eof_flush stubModel (some NewStubEngine) c8State []).2.2 c8State).1
     c8Bd rfl rfl⟩

end VadSilero
